import Mathlib

/-!
Verification development for the container-dashboard core: a shallow
embedding of the registry data model (`ContainerData`, `StatefulList`,
`ContainerItem`, `Logs`), the reconciliation routine `update_containers`,
the stat/log update routines, the sort engine, and the navigation stack,
together with theorems settling the specification claims.

Modelling conventions:
* Rust `VecDeque` is a Lean `List` (front = head): `pop_front` is `tail`,
  `push_back` appends.
* ratatui `ListState` is its selected index, an `Option Nat` (the scroll
  offset is display-only).
* `f64` sample values are modelled as exact rationals `FVal` (an
  integer numerator with a positive natural denominator); every numeric
  literal appearing in the claims is exactly representable in `f64`, so
  the comparisons the code performs agree with this exact model.
* Rust `String` is a Lean `String`; the operations the code uses
  (`trim`, `starts_with`, `remove(0)`, `replace`, `split_inclusive`) are
  implemented on the character list so that they reduce in the kernel.
  Rust's byte-lexicographic `String` ordering coincides with Lean's
  character-lexicographic `compare` because UTF-8 preserves codepoint
  order.
* Rust's stable `sort_by` with comparator `f` is `List.insertionSort`
  with the relation `f a b ≠ Greater`; for a total preorder the stable
  sorted result is unique, so this is faithful.
-/

namespace Oxker

/-! ## String helpers (kernel-reducible models of the Rust string ops) -/

/-- Strip leading and trailing whitespace, as Rust `str::trim`. -/
def str_trim (s : String) : String :=
  ⟨((s.data.dropWhile Char.isWhitespace).reverse.dropWhile Char.isWhitespace).reverse⟩

/-- Decide whether `p` is a list-prefix of `s`. -/
def ch_starts : List Char → List Char → Bool
  | [], _ => true
  | _ :: _, [] => false
  | a :: as, b :: bs => a = b && ch_starts as bs

/-- Rust `str::starts_with`. -/
def str_starts (p s : String) : Bool :=
  ch_starts p.data s.data

/-- Replace every occurrence of `pat` by `rep`, fuel-driven so that the
kernel can evaluate it; with an empty pattern it returns the input
unchanged (the code only ever replaces a nonempty timestamp token). -/
def ch_replace (pat rep : List Char) : Nat → List Char → List Char
  | _, [] => []
  | 0, s => s
  | fuel + 1, c :: s =>
      if pat ≠ [] ∧ ch_starts pat (c :: s) then
        rep ++ ch_replace pat rep fuel ((c :: s).drop pat.length)
      else
        c :: ch_replace pat rep fuel s

/-- Rust `str::replace` (all occurrences). -/
def str_replace (s pat rep : String) : String :=
  ⟨ch_replace pat.data rep.data (s.data.length + 1) s.data⟩

/-- Drop the first character, as `String::remove(0)` leaves the string. -/
def str_drop1 (s : String) : String :=
  ⟨s.data.drop 1⟩

/-- Decimal digit to character. -/
def digit_char : Nat → Char
  | 0 => '0' | 1 => '1' | 2 => '2' | 3 => '3' | 4 => '4'
  | 5 => '5' | 6 => '6' | 7 => '7' | 8 => '8' | _ => '9'

/-- Decimal digits of `n`, fuel-driven. -/
def nat_chars : Nat → Nat → List Char
  | 0, _ => []
  | fuel + 1, n => if n < 10 then [digit_char n] else nat_chars fuel (n / 10) ++ [digit_char (n % 10)]

/-- Decimal rendering of a natural number. -/
def nat_to_string (n : Nat) : String :=
  ⟨nat_chars (n + 1) n⟩

/-! ## Exact model of `f64` sample values -/

/-- Exact-rational model of an `f64` value: `num / den` with `den`
positive for every value the development constructs. -/
structure FVal where
  num : Int
  den : Nat
deriving DecidableEq, Repr

/-- Embed a natural number (Rust `as f64` on an index or byte count). -/
def FVal.ofNat (n : Nat) : FVal :=
  ⟨n, 1⟩

/-- The `f64` default, `0.0` (`CpuStats::default`). -/
def FVal.zero : FVal :=
  ⟨0, 1⟩

/-! ## CPU / byte stats (`container_state.rs`) -/

/-- Source: `impl Ord for CpuStats`. `Greater` when `a > b`, `Equal` when
`|a - b| < 0.01`, `Less` otherwise; stated on the exact rationals by
cross-multiplying with the (positive) denominators. -/
def cpu_cmp (a b : FVal) : Ordering :=
  if b.num * (a.den : Int) < a.num * (b.den : Int) then Ordering.gt
  else if 100 * (a.num * (b.den : Int) - b.num * (a.den : Int)).natAbs < a.den * b.den then Ordering.eq
  else Ordering.lt

/-- Source: `impl Ord for ByteStats`, exact `u64` ordering. -/
def byte_cmp (a b : Nat) : Ordering :=
  compare a b

/-- Two-digit zero-padded rendering of `n < 100`. -/
def pad2 (n : Nat) : String :=
  if n < 10 then "0" ++ nat_to_string n else nat_to_string n

/-- Round `100 * n / denom` to the nearest integer, ties to even, the
rounding `f64`'s `{:.2}` formatting performs (exact at every value the
claims evaluate). -/
def round_hundredths (n denom : Nat) : Nat :=
  let q := 100 * n / denom
  let r := 100 * n % denom
  if 2 * r < denom then q
  else if denom < 2 * r then q + 1
  else if q % 2 = 0 then q else q + 1

/-- Source: `impl fmt::Display for ByteStats` — format a byte count into
kB / MB / GB with two decimals. -/
def byte_display (n : Nat) : String :=
  let fmt := fun (denom : Nat) (unit : String) =>
    let h := round_hundredths n denom
    nat_to_string (h / 100) ++ "." ++ pad2 (h % 100) ++ " " ++ unit
  if n ≥ 1000000000 then fmt 1000000000 "GB"
  else if n ≥ 1000000 then fmt 1000000 "MB"
  else fmt 1000 "kB"

/-! ## Container state enum (`container_state.rs`) -/

/-- Source: `enum State`. -/
inductive State
  | dead | exited | paused | removing | restarting | running | unknown
deriving DecidableEq, Repr

/-- Source: `State::order`. -/
def State.order : State → Nat
  | .running => 0
  | .paused => 1
  | .restarting => 2
  | .removing => 3
  | .exited => 4
  | .dead => 5
  | .unknown => 6

/-- Source: `impl From<String> for State`. -/
def State.from_str (input : String) : State :=
  if input = "dead" then .dead
  else if input = "exited" then .exited
  else if input = "paused" then .paused
  else if input = "removing" then .removing
  else if input = "restarting" then .restarting
  else if input = "running" then .running
  else .unknown

/-- Source: `enum DockerControls`. -/
inductive DockerControls
  | pause | restart | start | stop | unpause | delete
deriving DecidableEq, Repr

/-- Source: `DockerControls::gen_vec`. -/
def DockerControls.gen_vec : State → List DockerControls
  | .dead | .exited => [.start, .restart, .delete]
  | .paused => [.unpause, .stop, .delete]
  | .restarting => [.stop, .delete]
  | .running => [.pause, .restart, .stop, .delete]
  | _ => [.delete]

/-! ## StatefulList (`container_state.rs`, lines 57–121) -/

/-- Source: `StatefulList<T>`; `state` is the selected index of the
ratatui `ListState`. -/
structure StatefulList (α : Type) where
  state : Option Nat
  items : List α
deriving DecidableEq, Repr

namespace StatefulList

/-- Source: `StatefulList::new` — `ListState::default()` selects nothing. -/
def new (items : List α) : StatefulList α :=
  ⟨none, items⟩

/-- Source: `StatefulList::start` — selects index 0 unconditionally. -/
def start (l : StatefulList α) : StatefulList α :=
  { l with state := some 0 }

/-- Source: `StatefulList::end` (Lean name `endSelect`; `end` is a keyword). -/
def endSelect (l : StatefulList α) : StatefulList α :=
  if 0 < l.items.length then { l with state := some (l.items.length - 1) } else l

/-- Source: `StatefulList::next`. -/
def next (l : StatefulList α) : StatefulList α :=
  if l.items.isEmpty then l
  else
    let i := match l.state with
      | some i => if i < l.items.length - 1 then i + 1 else i
      | none => 0
    { l with state := some i }

/-- Source: `StatefulList::previous`. -/
def previous (l : StatefulList α) : StatefulList α :=
  if l.items.isEmpty then l
  else
    let i := match l.state with
      | some i => if i = 0 then 0 else i - 1
      | none => 0
    { l with state := some i }

/-- A present selection is index 0 or in bounds. -/
def sel_ok (l : StatefulList α) : Prop :=
  ∀ i, l.state = some i → i = 0 ∨ i < l.items.length

end StatefulList

/-! ## Logs (`container_state.rs`) -/

/-- Source: `LogsTz::from(&String)` — the inclusive first space-delimited
token (prefix through the first space, or the whole string). -/
def logs_tz (s : String) : String :=
  let pre := s.data.takeWhile (fun c => c ≠ ' ')
  if pre.length < s.data.length then ⟨pre ++ [' ']⟩ else ⟨pre⟩

/-- Source: `struct Logs` — the stateful list of rendered lines plus the
set of seen timestamps (the `HashSet` is modelled by its membership
list). A stored line is the text handed to `insert`; the display-only
ANSI transform (`colorize_logs` / `raw` / `remove_ansi`) is omitted as it
renders, never stores, state the claims mention. -/
structure Logs where
  logs : StatefulList String
  tz : List String
deriving DecidableEq, Repr

namespace Logs

/-- Source: `Logs::default()` — empty list, `end()` on empty is a no-op. -/
def default : Logs :=
  ⟨StatefulList.new [], []⟩

/-- Source: `Logs::insert` — push only when the timestamp is new. -/
def insert (l : Logs) (line : String) (tz : String) : Logs :=
  if l.tz.contains tz then l
  else ⟨{ l.logs with items := l.logs.items ++ [line] }, l.tz ++ [tz]⟩

/-- Source: `Logs::len`. -/
def len (l : Logs) : Nat :=
  l.logs.items.length

/-- Source: `Logs::end`. -/
def endSelect (l : Logs) : Logs :=
  ⟨l.logs.endSelect, l.tz⟩

end Logs

/-! ## ContainerItem (`container_state.rs`) -/

/-- Source: `struct ContainerItem`. -/
structure ContainerItem where
  created : Nat
  cpu_stats : List FVal
  docker_controls : StatefulList DockerControls
  id : String
  image : String
  last_updated : Nat
  logs : Logs
  mem_limit : Nat
  mem_stats : List Nat
  name : String
  rx : Nat
  state : State
  status : String
  tx : Nat
  is_oxker : Bool
deriving DecidableEq, Repr

namespace ContainerItem

/-- Source: `ContainerItem::new`. -/
def new (created : Nat) (id image : String) (is_oxker : Bool) (name : String)
    (state : State) (status : String) : ContainerItem :=
  { created := created
    cpu_stats := []
    docker_controls := (StatefulList.new (DockerControls.gen_vec state)).start
    id := id
    image := image
    last_updated := 0
    logs := Logs.default
    mem_limit := 0
    mem_stats := []
    name := name
    rx := 0
    state := state
    status := status
    tx := 0
    is_oxker := is_oxker }

/-- Source: `ContainerItem::max_cpu_stats` — `Iterator::max` keeps the
last of equally-maximal elements under the `CpuStats` ordering. -/
def max_cpu_stats (c : ContainerItem) : FVal :=
  match c.cpu_stats with
  | [] => FVal.zero
  | h :: t => t.foldl (fun acc x => if cpu_cmp acc x = Ordering.gt then acc else x) h

/-- Source: `ContainerItem::max_mem_stats`. -/
def max_mem_stats (c : ContainerItem) : Nat :=
  match c.mem_stats with
  | [] => 0
  | h :: t => t.foldl (fun acc x => if byte_cmp acc x = Ordering.gt then acc else x) h

/-- Source: `ContainerItem::get_cpu_dataset` — `(index as f64, value)`. -/
def get_cpu_dataset (c : ContainerItem) : List (FVal × FVal) :=
  (List.range c.cpu_stats.length).zip c.cpu_stats |>.map
    (fun p => (FVal.ofNat p.1, p.2))

/-- Source: `ContainerItem::get_mem_dataset`. -/
def get_mem_dataset (c : ContainerItem) : List (FVal × FVal) :=
  (List.range c.mem_stats.length).zip c.mem_stats |>.map
    (fun p => (FVal.ofNat p.1, FVal.ofNat p.2))

/-- Source: `ContainerItem::get_chart_data` — `(CpuTuple, MemTuple)`. -/
def get_chart_data (c : ContainerItem) :
    (List (FVal × FVal) × FVal × State) × (List (FVal × FVal) × Nat × State) :=
  ((c.get_cpu_dataset, c.max_cpu_stats, c.state),
   (c.get_mem_dataset, c.max_mem_stats, c.state))

end ContainerItem

/-! ## Headers, sort order, CLI flags, runtime snapshot rows -/

/-- Source: `enum SortedOrder` (`container_data.rs`). -/
inductive SortedOrder
  | asc | desc
deriving DecidableEq, Repr

/-- Source: `enum Header` (`container_data.rs`). -/
inductive Header
  | state | status | cpu | memory | id | name | image | rx | tx
deriving DecidableEq, Repr

/-- Modelled from the spec: the configuration surface the core consumes
(`CliArgs` is declared in the excluded CLI-parsing module); only the
`color` / `raw` / `timestamp` flags the registry code reads are kept. -/
structure CliArgs where
  color : Bool
  raw : Bool
  timestamp : Bool
deriving DecidableEq, Repr

/-- Fields of the bollard `ContainerSummary` rows the code reads (the
spec's `RawContainer`). -/
structure ContainerSummary where
  id : Option String
  names : Option (List String)
  image : Option String
  state : Option String
  status : Option String
  created : Option Int
  command : Option String
deriving DecidableEq, Repr

/-- Source: `const ENTRY_POINT` (`main.rs`). -/
def ENTRY_POINT : String :=
  "/app/oxker"

/-- Rust `Ord` on `Option` lifted over a comparator: `None` is least. -/
def opt_cmp (c : α → α → Ordering) : Option α → Option α → Ordering
  | none, none => Ordering.eq
  | none, some _ => Ordering.lt
  | some _, none => Ordering.gt
  | some a, some b => c a b

/-- Rust `i64::cmp`. -/
def int_cmp (x y : Int) : Ordering :=
  if x < y then Ordering.lt else if y < x then Ordering.gt else Ordering.eq

/-- Rust `u64::cmp`. -/
def nat_cmp (x y : Nat) : Ordering :=
  if x < y then Ordering.lt else if y < x then Ordering.gt else Ordering.eq

/-- Comparator of `all_containers.sort_by(|a, b| a.created.cmp(&b.created))`
as the boolean "not Greater" relation a stable sort consumes. -/
def summary_created_le (a b : ContainerSummary) : Bool :=
  opt_cmp int_cmp a.created b.created ≠ Ordering.gt

/-! ## ContainerData (`container_data.rs`) -/

/-- Source: `struct ContainerData` (the `AppData` aggregate's registry). -/
structure ContainerData where
  containers : StatefulList ContainerItem
  sorted_by : Option (Header × SortedOrder)
  args : CliArgs
deriving DecidableEq, Repr

namespace ContainerData

/-- Source: `ContainerData::new`. -/
def new (args : CliArgs) : ContainerData :=
  { containers := StatefulList.new [], sorted_by := none, args := args }

/-- Comparator selected by `sort_containers` for a `(Header, SortedOrder)`
pair; note the argument swap in each `Desc` arm and the swapped-argument
`State` arms, exactly as in the source `sort_by` calls. -/
def item_cmp : Header × SortedOrder → ContainerItem → ContainerItem → Ordering
  | (.state, .asc), a, b => nat_cmp b.state.order a.state.order
  | (.state, .desc), a, b => nat_cmp a.state.order b.state.order
  | (.status, .asc), a, b => compare a.status b.status
  | (.status, .desc), a, b => compare b.status a.status
  | (.cpu, .asc), a, b => opt_cmp cpu_cmp a.cpu_stats.getLast? b.cpu_stats.getLast?
  | (.cpu, .desc), a, b => opt_cmp cpu_cmp b.cpu_stats.getLast? a.cpu_stats.getLast?
  | (.memory, .asc), a, b => opt_cmp nat_cmp a.mem_stats.getLast? b.mem_stats.getLast?
  | (.memory, .desc), a, b => opt_cmp nat_cmp b.mem_stats.getLast? a.mem_stats.getLast?
  | (.id, .asc), a, b => compare a.id b.id
  | (.id, .desc), a, b => compare b.id a.id
  | (.image, .asc), a, b => compare a.image b.image
  | (.image, .desc), a, b => compare b.image a.image
  | (.name, .asc), a, b => compare a.name b.name
  | (.name, .desc), a, b => compare b.name a.name
  | (.rx, .asc), a, b => nat_cmp a.rx b.rx
  | (.rx, .desc), a, b => nat_cmp b.rx a.rx
  | (.tx, .asc), a, b => nat_cmp a.tx b.tx
  | (.tx, .desc), a, b => nat_cmp b.tx a.tx

/-- The full comparator of `sort_containers`: active sort if set,
otherwise created-time ascending. -/
def sort_cmp (sb : Option (Header × SortedOrder)) (a b : ContainerItem) : Ordering :=
  match sb with
  | some hs => item_cmp hs a b
  | none => nat_cmp a.created b.created

/-- The "not Greater" relation handed to the stable sort. -/
def sort_le (sb : Option (Header × SortedOrder)) (a b : ContainerItem) : Bool :=
  sort_cmp sb a b ≠ Ordering.gt

/-- Source: `ContainerData::sort_containers`. -/
def sort_containers (st : ContainerData) : ContainerData :=
  { st with containers :=
      { st.containers with
        items := st.containers.items.insertionSort (fun a b => sort_le st.sorted_by a b = true) } }

/-- Source: `ContainerData::get_selected_container`. -/
def get_selected_container (st : ContainerData) : Option ContainerItem :=
  st.containers.state.bind (fun i => st.containers.items.get? i)

/-- Source: `ContainerData::get_selected_container_id`. -/
def get_selected_container_id (st : ContainerData) : Option String :=
  (st.get_selected_container).map (fun c => c.id)

/-- First index satisfying a predicate (`Iterator::position`). -/
def position (p : α → Bool) : List α → Option Nat
  | [] => none
  | a :: l => if p a then some 0 else (position p l).map (· + 1)

/-- Source: `ContainerData::set_sorted`. The closure handed to
`position` re-reads `get_selected_container_id` after the sort has
already permuted the items, so the id it compares against is that of the
item now sitting at the old selected index; the selection state is not
mutated during the scan, so the id is one fixed value. -/
def set_sorted (st : ContainerData) (x : Option (Header × SortedOrder)) : ContainerData :=
  let st1 := sort_containers { st with sorted_by := x }
  let sel_id := st1.get_selected_container_id
  { st1 with containers :=
      { st1.containers with
        state := position (fun i => match sel_id with
          | some id => i.id = id
          | none => false) st1.containers.items } }

/-- Source: `ContainerData::reset_sorted`. -/
def reset_sorted (st : ContainerData) : ContainerData :=
  st.set_sorted none

/-- Source: `ContainerData::set_sort_by_header`. -/
def set_sort_by_header (st : ContainerData) (selected_header : Header) : ContainerData :=
  let output := match st.sorted_by with
    | some (current_header, order) =>
        if current_header = selected_header then
          match order with
          | .desc => none
          | .asc => some (selected_header, SortedOrder.desc)
        else some (selected_header, SortedOrder.asc)
    | none => some (selected_header, SortedOrder.asc)
  st.set_sorted output

/-- Source: `ContainerData::containers_start`. -/
def containers_start (st : ContainerData) : ContainerData :=
  { st with containers := st.containers.start }

/-- Source: `ContainerData::containers_end`. -/
def containers_end (st : ContainerData) : ContainerData :=
  { st with containers := st.containers.endSelect }

/-- Source: `ContainerData::containers_next`. -/
def containers_next (st : ContainerData) : ContainerData :=
  { st with containers := st.containers.next }

/-- Source: `ContainerData::containers_previous`. -/
def containers_previous (st : ContainerData) : ContainerData :=
  { st with containers := st.containers.previous }

/-- Source: `ContainerData::get_container_by_id` as a pure lookup of the
first item with the given id. -/
def find_by_id (items : List ContainerItem) (id : String) : Option ContainerItem :=
  match items with
  | [] => none
  | c :: cs => if c.id = id then some c else find_by_id cs id

/-- In-place mutation through `get_container_by_id`: rewrite the first
item with the given id by `f`, leave everything else unchanged. -/
def modify_by_id (items : List ContainerItem) (id : String)
    (f : ContainerItem → ContainerItem) : List ContainerItem :=
  match items with
  | [] => []
  | c :: cs => if c.id = id then f c :: cs else c :: modify_by_id cs id f

/-- The per-item body of `update_stats`: evict at capacity 60 first
(`pop_front` before the sample `Option` is examined), then push the
optional samples, then overwrite the counters unconditionally. -/
def stats_patch (cpu_stat : Option FVal) (mem_stat : Option Nat)
    (mem_limit rx tx : Nat) (c : ContainerItem) : ContainerItem :=
  let c := if c.cpu_stats.length ≥ 60 then { c with cpu_stats := c.cpu_stats.tail } else c
  let c := if c.mem_stats.length ≥ 60 then { c with mem_stats := c.mem_stats.tail } else c
  let c := match cpu_stat with
    | some v => { c with cpu_stats := c.cpu_stats ++ [v] }
    | none => c
  let c := match mem_stat with
    | some v => { c with mem_stats := c.mem_stats ++ [v] }
    | none => c
  { c with rx := rx, tx := tx, mem_limit := mem_limit }

/-- Source: `ContainerData::update_stats` — patch the named item (no-op
when the id is unknown) and re-sort. -/
def update_stats (st : ContainerData) (id : String) (cpu_stat : Option FVal)
    (mem_stat : Option Nat) (mem_limit rx tx : Nat) : ContainerData :=
  let st1 := { st with containers :=
    { st.containers with items := (modify_by_id st.containers.items id
        (stats_patch cpu_stat mem_stat mem_limit rx tx)) } }
  st1.sort_containers

/-- Source: `ContainerData::update_log_by_id` (`now` stands for the
wall-clock `get_systemtime` input). -/
def update_log_by_id (st : ContainerData) (logs : List String) (id : String)
    (now : Nat) : ContainerData :=
  let timestamp := st.args.timestamp
  { st with containers :=
    { st.containers with items := modify_by_id st.containers.items id (fun c =>
        let c := { c with last_updated := now }
        let current_len := c.logs.len
        let c := logs.foldl (fun c i =>
            let tz := logs_tz i
            let i := if ¬ timestamp then str_replace i tz "" else i
            { c with logs := c.logs.insert i tz }) c
        if c.logs.logs.state.isNone ||
            (match c.logs.logs.state with | some f => f + 1 | none => 1) == current_len then
          { c with logs := c.logs.endSelect }
        else c) } }

/-- Name extraction of `update_containers`: take the first entry of
`names`, strip a leading slash in place (`f.remove(0)`), and return both
the display name and the mutated `names` field. -/
def strip_name : Option (List String) → String × Option (List String)
  | none => ("", none)
  | some [] => ("", some [])
  | some (f :: rest) =>
      if str_starts "/" f then (str_drop1 f, some (str_drop1 f :: rest))
      else (f, some (f :: rest))

/-- The guarded `remove(index)` of the removal loop: `items.get(index)`
must be `Some` (the in-code comment: "else can cause out of bounds
error"). -/
def remove_erase (idx : Nat) (st : ContainerData) : ContainerData :=
  if idx < st.containers.items.length then
    { st with containers :=
      { st.containers with items := st.containers.items.eraseIdx idx } }
  else st

/-- The unconditional selection move of the removal loop: `previous()` is
called whenever any selection exists. -/
def remove_prev (st : ContainerData) : ContainerData :=
  if st.containers.state.isSome then st.containers_previous else st

/-- One step of the removal loop of `update_containers`: for an original
`(index, id)` pair, if the id is absent from the snapshot, move the
selection to the previous entry whenever any selection exists, then
remove at the original index when it is still in bounds. -/
def remove_step (s : List ContainerSummary) (st : ContainerData)
    (pr : Nat × String) : ContainerData :=
  if s.any (fun e => e.id = some pr.2) then st
  else remove_erase pr.1 (remove_prev st)

/-- The removal loop folded over the enumerated original id list. -/
def remove_go (st : ContainerData) (pairs : List (Nat × String))
    (s : List ContainerSummary) : ContainerData :=
  pairs.foldl (remove_step s) st

/-- `iter().enumerate()` starting at `n`. -/
def enumerate (n : Nat) : List α → List (Nat × α)
  | [] => []
  | a :: l => (n, a) :: enumerate (n + 1) l

/-- The in-place patch of an existing item: each field is overwritten
only when changed (the redraw-churn guard of `update_containers`). -/
def field_patch (name status : String) (state : State) (image : String)
    (item : ContainerItem) : ContainerItem :=
  let item := if item.name = name then item else { item with name := name }
  let item := if item.status = status then item else { item with status := status }
  let item := if item.state = state then item else { item with state := state }
  if item.image = image then item else { item with image := image }

/-- The display name a snapshot row yields (first entry of `names`, slash
stripped). -/
def sum_name (e : ContainerSummary) : String :=
  (strip_name e.names).1

/-- The `is_oxker` flag a snapshot row yields (`command` starts with the
entry point). -/
def sum_is_oxker (e : ContainerSummary) : Bool :=
  match e.command with
  | some c => str_starts ENTRY_POINT c
  | none => false

/-- The state a snapshot row yields (`"dead"` when absent, else trimmed). -/
def sum_state (e : ContainerSummary) : State :=
  State.from_str (match e.state with
    | some s => str_trim s
    | none => "dead")

/-- The status text a snapshot row yields. -/
def sum_status (e : ContainerSummary) : String :=
  match e.status with
  | some s => str_trim s
  | none => ""

/-- The image text a snapshot row yields. -/
def sum_image (e : ContainerSummary) : String :=
  match e.image with
  | some s => s
  | none => ""

/-- The creation time a snapshot row yields (`u64::try_from` sends a
negative value to the default 0). -/
def sum_created (e : ContainerSummary) : Nat :=
  match e.created with
  | some c => c.toNat
  | none => 0

/-- One step of the patch/insert loop of `update_containers`: compute the
derived fields of a snapshot row, mutate its `names` in place, and either
patch the first existing item with that id or push a freshly constructed
item. Rows without an id are skipped. -/
def patch_one (st : ContainerData) (e : ContainerSummary) :
    ContainerData × ContainerSummary :=
  match e.id with
  | none => (st, e)
  | some idStr =>
      let e1 := { e with names := (strip_name e.names).2 }
      match find_by_id st.containers.items idStr with
      | some _ =>
          ({ st with containers :=
              { st.containers with items := (modify_by_id st.containers.items idStr
                  (field_patch (sum_name e) (sum_status e) (sum_state e) (sum_image e))) } }, e1)
      | none =>
          ({ st with containers :=
              { st.containers with items := st.containers.items ++
                  [ContainerItem.new (sum_created e) idStr (sum_image e) (sum_is_oxker e)
                    (sum_name e) (sum_state e) (sum_status e)] } }, e1)

/-- The patch/insert loop, threading the in-place snapshot mutation. -/
def patch_go (st : ContainerData) : List ContainerSummary →
    ContainerData × List ContainerSummary
  | [] => (st, [])
  | e :: es =>
      let r1 := patch_one st e
      let r2 := patch_go r1.1 es
      (r2.1, r1.2 :: r2.2)

/-- Source: `ContainerData::update_containers` — sort the snapshot by
creation time when the registry is empty, seed the selection when the
snapshot is non-empty and nothing is selected, run the removal loop over
the enumerated pre-call ids, then patch or insert every snapshot row.
Returns the registry together with the mutated snapshot slice. -/
def update_containers (st : ContainerData) (s : List ContainerSummary) :
    ContainerData × List ContainerSummary :=
  let all_ids := st.containers.items.map (fun c => c.id)
  let s1 := if st.containers.items.isEmpty then
      s.insertionSort (fun a b => summary_created_le a b = true)
    else s
  let st1 := if ¬ s1.isEmpty ∧ st.containers.state = none then st.containers_start else st
  let st2 := remove_go st1 (enumerate 0 all_ids) s1
  patch_go st2 s1

/-- The selection invariant that actually holds: a present selection is
index 0 or a valid index (so a selection beyond index 0 is always in
bounds, but `Some 0` may survive on an empty list). -/
def selection_ok (st : ContainerData) : Prop :=
  st.containers.sel_ok

/-- Both history windows are within capacity on every item. -/
def stats_bounded (st : ContainerData) : Prop :=
  ∀ it ∈ st.containers.items, it.cpu_stats.length ≤ 60 ∧ it.mem_stats.length ≤ 60

end ContainerData

/-! ## Navigation stack (`ui/gui_state`) -/

/-- Source: `enum NavPanel` (`ui/gui_state/nav.rs`). -/
inductive NavPanel
  | containers | logs | metrics | info
deriving DecidableEq, Repr

/-- The navigation stack, top at the end (`GuiState.nav : Vec<NavPanel>`). -/
abbrev NavStack := List NavPanel

/-- Modelled from the spec: the stack mutators `append_nav` / `back_in_nav`
and the stack's initialisation are not under `src/` (only their callers in
`input_handler` are); §4.3 specifies them: the stack starts as the single
root panel `Containers`, `push` appends, and `pop` removes the top unless
the stack has exactly one element. -/
def nav_init : NavStack :=
  [NavPanel.containers]

/-- Modelled from the spec: `push(panel)` appends. -/
def nav_push (s : NavStack) (p : NavPanel) : NavStack :=
  s ++ [p]

/-- Modelled from the spec: `pop()` removes the top unless the stack has
exactly one element (the root is never popped). -/
def nav_pop (s : NavStack) : NavStack :=
  if s.length ≤ 1 then s else s.dropLast

/-- A navigation request. -/
inductive NavOp
  | push (p : NavPanel)
  | pop

/-- One navigation request. -/
def nav_step (s : NavStack) : NavOp → NavStack
  | NavOp.push p => nav_push s p
  | NavOp.pop => nav_pop s

/-- Apply a sequence of navigation requests to the initial stack. -/
def apply_nav (ops : List NavOp) : NavStack :=
  ops.foldl nav_step nav_init

/-! ## Public registry operations (for the state invariant) -/

/-- The public registry operations of the spec's invariant claim:
reconciliation, the four selection-navigation calls, the two sort
mutators, and the stat / log update calls. -/
inductive RegOp
  | reconcile (s : List ContainerSummary)
  | navStart
  | navEnd
  | navNext
  | navPrevious
  | sortBy (h : Header)
  | resetSort
  | stats (id : String) (cpu : Option FVal) (mem : Option Nat) (mem_limit rx tx : Nat)
  | logs (id : String) (lines : List String) (now : Nat)

/-- Apply one public registry operation. -/
def apply_reg (st : ContainerData) : RegOp → ContainerData
  | RegOp.reconcile s => (st.update_containers s).1
  | RegOp.navStart => st.containers_start
  | RegOp.navEnd => st.containers_end
  | RegOp.navNext => st.containers_next
  | RegOp.navPrevious => st.containers_previous
  | RegOp.sortBy h => st.set_sort_by_header h
  | RegOp.resetSort => st.reset_sorted
  | RegOp.stats id cpu mem ml rx tx => st.update_stats id cpu mem ml rx tx
  | RegOp.logs id lines now => st.update_log_by_id lines id now

/-- Run a sequence of public registry operations from the freshly
constructed registry. -/
def apply_regs (args : CliArgs) (ops : List RegOp) : ContainerData :=
  ops.foldl apply_reg (ContainerData.new args)

/-- A single `update_stats` call record (for the bounded-window claim). -/
structure StatCall where
  id : String
  cpu : Option FVal
  mem : Option Nat
  mem_limit : Nat
  rx : Nat
  tx : Nat

/-- Apply a sequence of `update_stats` calls. -/
def apply_stat_calls (st : ContainerData) (ops : List StatCall) : ContainerData :=
  ops.foldl (fun st op => st.update_stats op.id op.cpu op.mem op.mem_limit op.rx op.tx) st

/-! ## Derived characterisations and concrete fixtures -/

/-- The ids of the genuinely new snapshot rows in processing order: a row
whose id is unknown is pushed and its id becomes known. This
characterises the push decisions of the patch loop. -/
def new_ids (known : List String) : List ContainerSummary → List String
  | [] => []
  | e :: es =>
      match e.id with
      | none => new_ids known es
      | some i =>
          if known.any (fun k => k = i) then new_ids known es
          else i :: new_ids (i :: known) es

/-- The snapshot-row mutation the patch loop performs in place: the first
name is stripped of a leading slash when the row has an id. -/
def strip_entry (e : ContainerSummary) : ContainerSummary :=
  match e.id with
  | none => e
  | some _ => { e with names := (ContainerData.strip_name e.names).2 }

/-- Flags fixture for the concrete scenarios. -/
def args0 : CliArgs :=
  ⟨false, false, false⟩

/-- Running-container item fixture. -/
def fix_item (created : Nat) (id name : String) : ContainerItem :=
  ContainerItem.new created id "img" false name State.running "Up"

/-- Snapshot-row fixture matching `fix_item` (the runtime reports names
with a leading slash). -/
def fix_sum (id : String) (created : Int) : ContainerSummary :=
  ⟨some id, some ["/" ++ id], some "img", some "running", some "Up", some created, none⟩

/-- Registry `[a, b, c]` with index 1 (item `b`) selected. -/
def c1_abc : ContainerData :=
  { containers := ⟨some 1, [fix_item 1 "a" "a", fix_item 2 "b" "b", fix_item 3 "c" "c"]⟩,
    sorted_by := none, args := args0 }

/-- Registry `[a, b]` with nothing selected. -/
def c1_ab : ContainerData :=
  { containers := ⟨none, [fix_item 1 "a" "a", fix_item 2 "b" "b"]⟩,
    sorted_by := none, args := args0 }

/-- Registry `[a]` with index 0 selected. -/
def c1_a : ContainerData :=
  { containers := ⟨some 0, [fix_item 1 "a" "a"]⟩, sorted_by := none, args := args0 }

/-- Registry `[b, a]` (baseline creation order) with index 0 (item `b`)
selected. -/
def c2_state : ContainerData :=
  { containers := ⟨some 0, [fix_item 1 "b" "b", fix_item 2 "a" "a"]⟩,
    sorted_by := none, args := args0 }

/-- Single-container registry for the window scenario. -/
def c5_state : ContainerData :=
  { containers := ⟨some 0, [fix_item 1 "c1" "c1"]⟩, sorted_by := none, args := args0 }

/-- One hundred `update_stats` calls pushing the CPU samples 0, 1, …, 99. -/
def c5_calls : List StatCall :=
  (List.range 100).map (fun k => ⟨"c1", some (FVal.ofNat k), none, 0, 0, 0⟩)

/-- Registry `[a, b]` with an active Name-ascending sort. -/
def c6_state : ContainerData :=
  { containers := ⟨some 0, [fix_item 1 "a" "a", fix_item 2 "b" "b"]⟩,
    sorted_by := some (Header.name, SortedOrder.asc), args := args0 }

/-- Snapshot keeping `a`, `b` and adding a new container `d` whose name
`"0"` sorts before both under Name-ascending. -/
def c6_snapshot : List ContainerSummary :=
  [fix_sum "a" 1, fix_sum "b" 2,
   ⟨some "d", some ["/0"], some "img", some "running", some "Up", some 5, none⟩]

/-- The §8 scenario snapshot row: one running container created at 100. -/
def c8_sum : ContainerSummary :=
  ⟨some "c1", none, none, some "running", none, some 100, none⟩

/-- The §8 scenario state: reconcile the single running container, then
`update_stats("c1", cpu = 12.5, mem = 2_000_000, mem_limit =
4_000_000_000, rx = 10, tx = 20)`. -/
def c8_state : ContainerData :=
  (((ContainerData.new args0).update_containers [c8_sum]).1).update_stats "c1"
    (some ⟨25, 2⟩) (some 2000000) 4000000000 10 20

/-- An item whose two history windows are full (60 samples each). -/
def c10_item : ContainerItem :=
  { fix_item 1 "c1" "c1" with
      cpu_stats := (List.range 60).map FVal.ofNat,
      mem_stats := List.range 60 }

/-- Registry holding the full-window item. -/
def c10_state : ContainerData :=
  { containers := ⟨some 0, [c10_item]⟩, sorted_by := none, args := args0 }

/-! ## Helper lemmas about the list primitives -/

namespace ContainerData

theorem modify_by_id_length (l : List ContainerItem) (id : String)
    (f : ContainerItem → ContainerItem) :
    (modify_by_id l id f).length = l.length := by
  induction l with
  | nil => rfl
  | cons c cs ih =>
      by_cases h : c.id = id <;> simp [modify_by_id, h, ih]

theorem mem_modify_by_id {l : List ContainerItem} {id : String}
    {f : ContainerItem → ContainerItem} {y : ContainerItem}
    (hy : y ∈ modify_by_id l id f) : y ∈ l ∨ ∃ a, a ∈ l ∧ y = f a := by
  induction l with
  | nil => simp [modify_by_id] at hy
  | cons c cs ih =>
      by_cases h : c.id = id
      · simp only [modify_by_id, h, if_pos] at hy
        rcases List.mem_cons.mp hy with h1 | h1
        · exact Or.inr ⟨c, List.mem_cons_self _ _, h1⟩
        · exact Or.inl (List.mem_cons_of_mem _ h1)
      · simp only [modify_by_id, h, if_neg, not_false_iff] at hy
        rcases List.mem_cons.mp hy with h1 | h1
        · exact Or.inl (h1 ▸ List.mem_cons_self _ _)
        · rcases ih h1 with h2 | ⟨a, ha, hfa⟩
          · exact Or.inl (List.mem_cons_of_mem _ h2)
          · exact Or.inr ⟨a, List.mem_cons_of_mem _ ha, hfa⟩

theorem modify_by_id_map_id {l : List ContainerItem} {id : String}
    {f : ContainerItem → ContainerItem} (hf : ∀ x, (f x).id = x.id) :
    (modify_by_id l id f).map (fun c => c.id) = l.map (fun c => c.id) := by
  induction l with
  | nil => rfl
  | cons c cs ih =>
      by_cases h : c.id = id <;> simp [modify_by_id, h, ih, hf]

theorem modify_by_id_eq_self {l : List ContainerItem} {id : String}
    {f : ContainerItem → ContainerItem} {a : ContainerItem}
    (hfind : find_by_id l id = some a) (hfa : f a = a) :
    modify_by_id l id f = l := by
  induction l with
  | nil => simp [find_by_id] at hfind
  | cons c cs ih =>
      by_cases h : c.id = id
      · simp only [find_by_id, h, if_pos, Option.some.injEq] at hfind
        subst hfind
        simp [modify_by_id, h, hfa]
      · simp only [find_by_id, h, if_neg, not_false_iff] at hfind
        simp [modify_by_id, h, ih hfind]

theorem find_modify_self {l : List ContainerItem} {id : String}
    {f : ContainerItem → ContainerItem} {a : ContainerItem}
    (hf : ∀ x, (f x).id = x.id) (hfind : find_by_id l id = some a) :
    find_by_id (modify_by_id l id f) id = some (f a) := by
  induction l with
  | nil => simp [find_by_id] at hfind
  | cons c cs ih =>
      by_cases h : c.id = id
      · simp only [find_by_id, h, if_pos, Option.some.injEq] at hfind
        subst hfind
        simp [modify_by_id, h, find_by_id, hf]
      · simp only [find_by_id, h, if_neg, not_false_iff] at hfind
        simp [modify_by_id, h, find_by_id, ih hfind]

theorem find_modify_other {l : List ContainerItem} {id j : String}
    {f : ContainerItem → ContainerItem} (hf : ∀ x, (f x).id = x.id)
    (hj : j ≠ id) :
    find_by_id (modify_by_id l j f) id = find_by_id l id := by
  induction l with
  | nil => rfl
  | cons c cs ih =>
      by_cases h : c.id = j
      · have hcid : ¬ c.id = id := fun hc => hj (h.symm.trans hc)
        have hfc : ¬ (f c).id = id := by rw [hf]; exact hcid
        have e1 : modify_by_id (c :: cs) j f = f c :: cs := by
          simp [modify_by_id, h]
        rw [e1]
        have e2 : find_by_id (f c :: cs) id = find_by_id cs id := by
          simp [find_by_id, hfc]
        have e3 : find_by_id (c :: cs) id = find_by_id cs id := by
          simp [find_by_id, hcid]
        rw [e2, e3]
      · have e1 : modify_by_id (c :: cs) j f = c :: modify_by_id cs j f := by
          simp [modify_by_id, h]
        rw [e1]
        by_cases h2 : c.id = id
        · simp [find_by_id, h2]
        · simp [find_by_id, h2, ih]

theorem mem_modify_of_find {l : List ContainerItem} {id : String}
    {f : ContainerItem → ContainerItem} {a : ContainerItem}
    (hfind : find_by_id l id = some a) : f a ∈ modify_by_id l id f := by
  induction l with
  | nil => simp [find_by_id] at hfind
  | cons c cs ih =>
      by_cases h : c.id = id
      · simp only [find_by_id, h, if_pos, Option.some.injEq] at hfind
        subst hfind
        simp [modify_by_id, h]
      · simp only [find_by_id, h, if_neg, not_false_iff] at hfind
        simp only [modify_by_id, h, if_neg, not_false_iff]
        exact List.mem_cons_of_mem _ (ih hfind)

theorem find_append {l : List ContainerItem} {x : ContainerItem} {id : String} :
    find_by_id (l ++ [x]) id =
      match find_by_id l id with
      | some a => some a
      | none => if x.id = id then some x else none := by
  induction l with
  | nil => simp [find_by_id]
  | cons c cs ih =>
      by_cases h : c.id = id <;> simp [find_by_id, h, ih]

theorem find_none_of_all {l : List ContainerItem} {id : String}
    (h : ∀ c ∈ l, c.id ≠ id) : find_by_id l id = none := by
  induction l with
  | nil => rfl
  | cons c cs ih =>
      simp only [find_by_id, h c (List.mem_cons_self _ _), if_neg, not_false_iff]
      exact ih (fun d hd => h d (List.mem_cons_of_mem _ hd))

theorem find_some_mem {l : List ContainerItem} {id : String} {a : ContainerItem}
    (h : find_by_id l id = some a) : a ∈ l ∧ a.id = id := by
  induction l with
  | nil => simp [find_by_id] at h
  | cons c cs ih =>
      by_cases hc : c.id = id
      · simp only [find_by_id, hc, if_pos, Option.some.injEq] at h
        exact ⟨h ▸ List.mem_cons_self _ _, h ▸ hc⟩
      · simp only [find_by_id, hc, if_neg, not_false_iff] at h
        exact ⟨List.mem_cons_of_mem _ (ih h).1, (ih h).2⟩

theorem position_lt {p : α → Bool} :
    ∀ {l : List α} {i : Nat}, position p l = some i → i < l.length := by
  intro l
  induction l with
  | nil => intro i h; simp [position] at h
  | cons a l ih =>
      intro i h
      by_cases hp : p a
      · simp only [position, hp, if_pos, Option.some.injEq] at h
        subst h
        simp
      · have e1 : position p (a :: l) = (position p l).map (· + 1) := by
          simp [position, hp]
        rw [e1] at h
        cases hpos : position p l with
        | none => rw [hpos] at h; simp at h
        | some j =>
            rw [hpos] at h
            simp only [Option.map_some', Option.some.injEq] at h
            subst h
            have := ih hpos
            simp only [List.length_cons]
            omega

theorem enumerate_append (n : Nat) (l1 l2 : List α) :
    enumerate n (l1 ++ l2) = enumerate n l1 ++ enumerate (n + l1.length) l2 := by
  induction l1 generalizing n with
  | nil => simp [enumerate]
  | cons a l ih =>
      have h1 : enumerate n ((a :: l) ++ l2) = (n, a) :: enumerate (n + 1) (l ++ l2) := rfl
      have h2 : enumerate n (a :: l) = (n, a) :: enumerate (n + 1) l := rfl
      rw [h1, h2, ih, List.cons_append]
      have h3 : n + (a :: l).length = n + 1 + l.length := by
        simp only [List.length_cons]
        omega
      rw [h3]

theorem mem_enumerate {n : Nat} {l : List α} {pr : Nat × α}
    (h : pr ∈ enumerate n l) : pr.2 ∈ l := by
  induction l generalizing n with
  | nil => simp [enumerate] at h
  | cons a l ih =>
      simp only [enumerate, List.mem_cons] at h
      rcases h with h | h
      · simp [h]
      · exact List.mem_cons_of_mem _ (ih h)

theorem eraseIdx_append_middle (l1 : List α) (x : α) (l2 : List α) :
    (l1 ++ x :: l2).eraseIdx l1.length = l1 ++ l2 := by
  induction l1 with
  | nil => rfl
  | cons a l ih => simp [List.eraseIdx, ih]

end ContainerData

/-! ## Phase-level preservation lemmas -/

namespace StatefulList

theorem start_items (l : StatefulList α) : (l.start).items = l.items := rfl

theorem endSelect_items (l : StatefulList α) : (l.endSelect).items = l.items := by
  unfold endSelect
  split <;> rfl

theorem next_items (l : StatefulList α) : (l.next).items = l.items := by
  unfold next
  split <;> rfl

theorem previous_items (l : StatefulList α) : (l.previous).items = l.items := by
  unfold previous
  split <;> rfl

theorem sel_ok_start (l : StatefulList α) : l.start.sel_ok := by
  intro i hi
  have h2 : (some 0 : Option Nat) = some i := hi
  injection h2 with h2
  left
  omega

theorem sel_ok_endSelect (l : StatefulList α) (h : l.sel_ok) : l.endSelect.sel_ok := by
  intro i hi
  rw [endSelect_items]
  unfold endSelect at hi
  by_cases hl : 0 < l.items.length
  · rw [if_pos hl] at hi
    have h2 : some (l.items.length - 1) = some i := hi
    injection h2 with h2
    right
    omega
  · rw [if_neg hl] at hi
    exact h i hi

theorem sel_ok_next (l : StatefulList α) (h : l.sel_ok) : l.next.sel_ok := by
  intro i hi
  rw [next_items]
  unfold next at hi
  by_cases he : l.items.isEmpty = true
  · rw [if_pos he] at hi
    exact h i hi
  · rw [if_neg he] at hi
    have hlen : 0 < l.items.length := by
      cases hl : l.items with
      | nil => rw [hl] at he; simp at he
      | cons a t => simp
    cases hst : l.state with
    | none =>
        rw [hst] at hi
        have h2 : (some 0 : Option Nat) = some i := hi
        injection h2 with h2
        left
        omega
    | some j =>
        rw [hst] at hi
        have h2 : some (if j < l.items.length - 1 then j + 1 else j) = some i := hi
        injection h2 with h2
        by_cases hj : j < l.items.length - 1
        · rw [if_pos hj] at h2
          right
          omega
        · rw [if_neg hj] at h2
          rcases h j hst with h0 | hlt
          · left; omega
          · right; omega

theorem sel_ok_previous (l : StatefulList α) (h : l.sel_ok) : l.previous.sel_ok := by
  intro i hi
  rw [previous_items]
  unfold previous at hi
  by_cases he : l.items.isEmpty = true
  · rw [if_pos he] at hi
    exact h i hi
  · rw [if_neg he] at hi
    have hlen : 0 < l.items.length := by
      cases hl : l.items with
      | nil => rw [hl] at he; simp at he
      | cons a t => simp
    cases hst : l.state with
    | none =>
        rw [hst] at hi
        have h2 : (some 0 : Option Nat) = some i := hi
        injection h2 with h2
        left
        omega
    | some j =>
        rw [hst] at hi
        have h2 : some (if j = 0 then 0 else j - 1) = some i := hi
        injection h2 with h2
        by_cases hj : j = 0
        · rw [if_pos hj] at h2
          left
          omega
        · rw [if_neg hj] at h2
          rcases h j hst with h0 | hlt
          · exact absurd h0 hj
          · right
            omega

/-- `previous` keeps a present selection present. -/
theorem previous_isSome (l : StatefulList α) (h : l.state.isSome = true) :
    (l.previous).state.isSome = true := by
  unfold previous
  split
  · exact h
  · rfl

end StatefulList

namespace ContainerData

theorem sort_containers_state (st : ContainerData) :
    (st.sort_containers).containers.state = st.containers.state := rfl

theorem sort_containers_sorted_by (st : ContainerData) :
    (st.sort_containers).sorted_by = st.sorted_by := rfl

theorem sort_containers_args (st : ContainerData) :
    (st.sort_containers).args = st.args := rfl

theorem sort_containers_perm (st : ContainerData) :
    List.Perm (st.sort_containers).containers.items st.containers.items :=
  List.perm_insertionSort _ _

theorem sort_containers_length (st : ContainerData) :
    (st.sort_containers).containers.items.length = st.containers.items.length :=
  (sort_containers_perm st).length_eq

theorem update_stats_state (st : ContainerData) (id : String) (cpu : Option FVal)
    (mem : Option Nat) (ml rx tx : Nat) :
    (st.update_stats id cpu mem ml rx tx).containers.state = st.containers.state := rfl

theorem update_stats_sorted_by (st : ContainerData) (id : String) (cpu : Option FVal)
    (mem : Option Nat) (ml rx tx : Nat) :
    (st.update_stats id cpu mem ml rx tx).sorted_by = st.sorted_by := rfl

theorem update_stats_args (st : ContainerData) (id : String) (cpu : Option FVal)
    (mem : Option Nat) (ml rx tx : Nat) :
    (st.update_stats id cpu mem ml rx tx).args = st.args := rfl

theorem update_stats_length (st : ContainerData) (id : String) (cpu : Option FVal)
    (mem : Option Nat) (ml rx tx : Nat) :
    (st.update_stats id cpu mem ml rx tx).containers.items.length =
      st.containers.items.length := by
  unfold update_stats
  rw [sort_containers_length]
  exact modify_by_id_length _ _ _

theorem update_log_by_id_state (st : ContainerData) (logs : List String)
    (id : String) (now : Nat) :
    (st.update_log_by_id logs id now).containers.state = st.containers.state := rfl

theorem update_log_by_id_sorted_by (st : ContainerData) (logs : List String)
    (id : String) (now : Nat) :
    (st.update_log_by_id logs id now).sorted_by = st.sorted_by := rfl

theorem update_log_by_id_args (st : ContainerData) (logs : List String)
    (id : String) (now : Nat) :
    (st.update_log_by_id logs id now).args = st.args := rfl

theorem update_log_by_id_length (st : ContainerData) (logs : List String)
    (id : String) (now : Nat) :
    (st.update_log_by_id logs id now).containers.items.length =
      st.containers.items.length := by
  unfold update_log_by_id
  exact modify_by_id_length _ _ _

theorem set_sorted_selection (st : ContainerData) (x : Option (Header × SortedOrder)) :
    selection_ok (st.set_sorted x) := by
  intro i hi
  unfold set_sorted at hi
  simp only at hi
  right
  exact position_lt hi

theorem containers_start_ok (st : ContainerData) : selection_ok st.containers_start :=
  StatefulList.sel_ok_start st.containers

theorem containers_end_ok (st : ContainerData) (h : selection_ok st) :
    selection_ok st.containers_end :=
  StatefulList.sel_ok_endSelect st.containers h

theorem containers_next_ok (st : ContainerData) (h : selection_ok st) :
    selection_ok st.containers_next :=
  StatefulList.sel_ok_next st.containers h

theorem containers_previous_ok (st : ContainerData) (h : selection_ok st) :
    selection_ok st.containers_previous :=
  StatefulList.sel_ok_previous st.containers h

theorem selection_ok_of (st1 st2 : ContainerData)
    (hs : st2.containers.state = st1.containers.state)
    (hl : st1.containers.items.length ≤ st2.containers.items.length)
    (h : selection_ok st1) : selection_ok st2 := by
  intro i hi
  rw [hs] at hi
  rcases h i hi with h0 | h0
  · exact Or.inl h0
  · right
    omega

theorem length_eraseIdx_lt {l : List α} {i : Nat} (h : i < l.length) :
    (l.eraseIdx i).length = l.length - 1 := by
  induction l generalizing i with
  | nil => simp at h
  | cons a t ih =>
      cases i with
      | zero => simp [List.eraseIdx]
      | succ j =>
          have hj : j < t.length := by
            simp only [List.length_cons] at h
            omega
          have he : (a :: t).eraseIdx (j + 1) = a :: t.eraseIdx j := rfl
          rw [he]
          simp only [List.length_cons, ih hj]
          omega

/-! ### Removal-loop lemmas -/

theorem remove_erase_state (idx : Nat) (st : ContainerData) :
    (remove_erase idx st).containers.state = st.containers.state := by
  unfold remove_erase
  split <;> rfl

theorem remove_erase_sorted_by (idx : Nat) (st : ContainerData) :
    (remove_erase idx st).sorted_by = st.sorted_by := by
  unfold remove_erase
  split <;> rfl

theorem remove_erase_args (idx : Nat) (st : ContainerData) :
    (remove_erase idx st).args = st.args := by
  unfold remove_erase
  split <;> rfl

theorem remove_prev_sorted_by (st : ContainerData) :
    (remove_prev st).sorted_by = st.sorted_by := by
  unfold remove_prev containers_previous
  split <;> rfl

theorem remove_prev_args (st : ContainerData) :
    (remove_prev st).args = st.args := by
  unfold remove_prev containers_previous
  split <;> rfl

theorem remove_step_sorted_by (s : List ContainerSummary) (st : ContainerData)
    (pr : Nat × String) : (remove_step s st pr).sorted_by = st.sorted_by := by
  unfold remove_step
  split
  · rfl
  · rw [remove_erase_sorted_by, remove_prev_sorted_by]

theorem remove_step_args (s : List ContainerSummary) (st : ContainerData)
    (pr : Nat × String) : (remove_step s st pr).args = st.args := by
  unfold remove_step
  split
  · rfl
  · rw [remove_erase_args, remove_prev_args]

/-- After the unconditional `previous()`, a present selection is 0 or
strictly below `length - 1`, the bound the subsequent `remove` needs. -/
theorem remove_prev_strong (st : ContainerData) (h : selection_ok st) :
    ∀ j, (remove_prev st).containers.state = some j →
      j = 0 ∨ j + 1 < (remove_prev st).containers.items.length := by
  intro j hj
  unfold remove_prev at hj ⊢
  by_cases hs : st.containers.state.isSome = true
  · rw [if_pos hs] at hj ⊢
    unfold containers_previous StatefulList.previous at hj ⊢
    by_cases he : st.containers.items.isEmpty = true
    · rw [if_pos he] at hj
      rw [if_pos he]
      rcases h j hj with h0 | h0
      · exact Or.inl h0
      · have : st.containers.items.length = 0 := by
          cases hl : st.containers.items with
          | nil => simp
          | cons a t => rw [hl] at he; simp at he
        omega
    · rw [if_neg he] at hj
      rw [if_neg he]
      cases hst : st.containers.state with
      | none => rw [hst] at hs; simp at hs
      | some k =>
          rw [hst] at hj
          have h2 : some (if k = 0 then 0 else k - 1) = some j := hj
          injection h2 with h2
          by_cases hk : k = 0
          · rw [if_pos hk] at h2
            left
            omega
          · rw [if_neg hk] at h2
            rcases h k hst with h0 | h0
            · exact absurd h0 hk
            · right
              simp only
              omega
  · rw [if_neg hs] at hj ⊢
    rcases h j hj with h0 | h0
    · exact Or.inl h0
    · cases hst : st.containers.state with
      | none => rw [hst] at hj; cases hj
      | some k => rw [hst] at hs; simp at hs

theorem remove_step_ok (s : List ContainerSummary) (st : ContainerData)
    (pr : Nat × String) (h : selection_ok st) :
    selection_ok (remove_step s st pr) := by
  unfold remove_step
  split
  · exact h
  · have hstrong := remove_prev_strong st h
    unfold remove_erase
    by_cases hidx : pr.1 < (remove_prev st).containers.items.length
    · rw [if_pos hidx]
      intro i hi
      have hi2 : (remove_prev st).containers.state = some i := hi
      rcases hstrong i hi2 with h0 | h0
      · exact Or.inl h0
      · right
        simp only
        rw [length_eraseIdx_lt hidx]
        omega
    · rw [if_neg hidx]
      intro i hi
      rcases hstrong i hi with h0 | h0
      · exact Or.inl h0
      · right
        omega

theorem remove_go_cons (s : List ContainerSummary) (st : ContainerData)
    (pr : Nat × String) (rest : List (Nat × String)) :
    remove_go st (pr :: rest) s = remove_go (remove_step s st pr) rest s := rfl

theorem remove_go_ok (s : List ContainerSummary) (pairs : List (Nat × String)) :
    ∀ st, selection_ok st → selection_ok (remove_go st pairs s) := by
  induction pairs with
  | nil => intro st h; exact h
  | cons pr rest ih =>
      intro st h
      rw [remove_go_cons]
      exact ih _ (remove_step_ok s st pr h)

theorem remove_go_sorted_by (s : List ContainerSummary) (pairs : List (Nat × String)) :
    ∀ st, (remove_go st pairs s).sorted_by = st.sorted_by := by
  induction pairs with
  | nil => intro st; rfl
  | cons pr rest ih =>
      intro st
      rw [remove_go_cons, ih, remove_step_sorted_by]

theorem remove_go_args (s : List ContainerSummary) (pairs : List (Nat × String)) :
    ∀ st, (remove_go st pairs s).args = st.args := by
  induction pairs with
  | nil => intro st; rfl
  | cons pr rest ih =>
      intro st
      rw [remove_go_cons, ih, remove_step_args]

/-! ### Patch-loop lemmas -/

theorem patch_one_state (st : ContainerData) (e : ContainerSummary) :
    (patch_one st e).1.containers.state = st.containers.state := by
  unfold patch_one
  cases e.id with
  | none => rfl
  | some idStr =>
      dsimp only
      cases find_by_id st.containers.items idStr <;> rfl

theorem patch_one_sorted_by (st : ContainerData) (e : ContainerSummary) :
    (patch_one st e).1.sorted_by = st.sorted_by := by
  unfold patch_one
  cases e.id with
  | none => rfl
  | some idStr =>
      dsimp only
      cases find_by_id st.containers.items idStr <;> rfl

theorem patch_one_args (st : ContainerData) (e : ContainerSummary) :
    (patch_one st e).1.args = st.args := by
  unfold patch_one
  cases e.id with
  | none => rfl
  | some idStr =>
      dsimp only
      cases find_by_id st.containers.items idStr <;> rfl

theorem patch_one_length_ge (st : ContainerData) (e : ContainerSummary) :
    st.containers.items.length ≤ (patch_one st e).1.containers.items.length := by
  unfold patch_one
  cases e.id with
  | none => exact Nat.le_refl _
  | some idStr =>
      dsimp only
      cases hf : find_by_id st.containers.items idStr with
      | none =>
          simp only [List.length_append, List.length_cons, List.length_nil]
          omega
      | some a =>
          simp only
          rw [modify_by_id_length]

theorem patch_go_cons (st : ContainerData) (e : ContainerSummary)
    (es : List ContainerSummary) :
    patch_go st (e :: es) =
      ((patch_go (patch_one st e).1 es).1,
        (patch_one st e).2 :: (patch_go (patch_one st e).1 es).2) := rfl

theorem patch_go_state (es : List ContainerSummary) :
    ∀ st, (patch_go st es).1.containers.state = st.containers.state := by
  induction es with
  | nil => intro st; rfl
  | cons e es ih =>
      intro st
      rw [patch_go_cons]
      simp only
      rw [ih, patch_one_state]

theorem patch_go_sorted_by (es : List ContainerSummary) :
    ∀ st, (patch_go st es).1.sorted_by = st.sorted_by := by
  induction es with
  | nil => intro st; rfl
  | cons e es ih =>
      intro st
      rw [patch_go_cons]
      simp only
      rw [ih, patch_one_sorted_by]

theorem patch_go_args (es : List ContainerSummary) :
    ∀ st, (patch_go st es).1.args = st.args := by
  induction es with
  | nil => intro st; rfl
  | cons e es ih =>
      intro st
      rw [patch_go_cons]
      simp only
      rw [ih, patch_one_args]

theorem patch_go_length_ge (es : List ContainerSummary) :
    ∀ st, st.containers.items.length ≤ (patch_go st es).1.containers.items.length := by
  induction es with
  | nil => intro st; exact Nat.le_refl _
  | cons e es ih =>
      intro st
      rw [patch_go_cons]
      simp only
      exact Nat.le_trans (patch_one_length_ge st e) (ih _)

/-! ### Reconciliation-level lemmas -/

theorem update_containers_ok (st : ContainerData) (s : List ContainerSummary)
    (h : selection_ok st) : selection_ok (st.update_containers s).1 := by
  simp only [update_containers]
  apply selection_ok_of _ _ (patch_go_state _ _) (patch_go_length_ge _ _)
  apply remove_go_ok
  split <;> split
  all_goals first
  | exact containers_start_ok st
  | exact h

theorem update_containers_sorted_by (st : ContainerData) (s : List ContainerSummary) :
    (st.update_containers s).1.sorted_by = st.sorted_by := by
  simp only [update_containers]
  rw [patch_go_sorted_by, remove_go_sorted_by]
  split <;> split <;> rfl

theorem update_containers_args (st : ContainerData) (s : List ContainerSummary) :
    (st.update_containers s).1.args = st.args := by
  simp only [update_containers]
  rw [patch_go_args, remove_go_args]
  split <;> split <;> rfl

end ContainerData

namespace ContainerData

theorem update_stats_ok (st : ContainerData) (id : String) (cpu : Option FVal)
    (mem : Option Nat) (ml rx tx : Nat) (h : selection_ok st) :
    selection_ok (st.update_stats id cpu mem ml rx tx) := by
  apply selection_ok_of st
  · exact update_stats_state st id cpu mem ml rx tx
  · rw [update_stats_length]
  · exact h

theorem update_log_by_id_ok (st : ContainerData) (logs : List String)
    (id : String) (now : Nat) (h : selection_ok st) :
    selection_ok (st.update_log_by_id logs id now) := by
  apply selection_ok_of st
  · exact update_log_by_id_state st logs id now
  · rw [update_log_by_id_length]
  · exact h

theorem set_sort_by_header_ok (st : ContainerData) (h : Header) :
    selection_ok (st.set_sort_by_header h) :=
  set_sorted_selection st _

theorem reset_sorted_ok (st : ContainerData) : selection_ok st.reset_sorted :=
  set_sorted_selection st none

theorem new_ok (args : CliArgs) : selection_ok (ContainerData.new args) := by
  intro i hi
  cases hi

/-! ### Bounded stats windows -/

theorem stats_patch_id (cpu : Option FVal) (mem : Option Nat) (ml rx tx : Nat)
    (c : ContainerItem) : (stats_patch cpu mem ml rx tx c).id = c.id := by
  unfold stats_patch
  cases cpu <;> cases mem <;>
    by_cases h1 : c.cpu_stats.length ≥ 60 <;>
    by_cases h2 : c.mem_stats.length ≥ 60 <;>
    simp [h1, h2]

theorem stats_patch_cpu (cpu : Option FVal) (mem : Option Nat) (ml rx tx : Nat)
    (c : ContainerItem) :
    (stats_patch cpu mem ml rx tx c).cpu_stats =
      (match cpu with
        | some v => (if c.cpu_stats.length ≥ 60 then c.cpu_stats.tail else c.cpu_stats) ++ [v]
        | none => if c.cpu_stats.length ≥ 60 then c.cpu_stats.tail else c.cpu_stats) := by
  unfold stats_patch
  cases cpu <;> cases mem <;>
    by_cases h1 : c.cpu_stats.length ≥ 60 <;>
    by_cases h2 : c.mem_stats.length ≥ 60 <;>
    simp [h1, h2]

theorem stats_patch_mem (cpu : Option FVal) (mem : Option Nat) (ml rx tx : Nat)
    (c : ContainerItem) :
    (stats_patch cpu mem ml rx tx c).mem_stats =
      (match mem with
        | some v => (if c.mem_stats.length ≥ 60 then c.mem_stats.tail else c.mem_stats) ++ [v]
        | none => if c.mem_stats.length ≥ 60 then c.mem_stats.tail else c.mem_stats) := by
  unfold stats_patch
  cases cpu <;> cases mem <;>
    by_cases h1 : c.cpu_stats.length ≥ 60 <;>
    by_cases h2 : c.mem_stats.length ≥ 60 <;>
    simp [h1, h2]

theorem stats_patch_cpu_le (cpu : Option FVal) (mem : Option Nat) (ml rx tx : Nat)
    (c : ContainerItem) (h : c.cpu_stats.length ≤ 60) :
    (stats_patch cpu mem ml rx tx c).cpu_stats.length ≤ 60 := by
  rw [stats_patch_cpu]
  cases cpu <;>
    by_cases h1 : c.cpu_stats.length ≥ 60 <;>
    simp [h1, List.length_tail] <;>
    omega

theorem stats_patch_mem_le (cpu : Option FVal) (mem : Option Nat) (ml rx tx : Nat)
    (c : ContainerItem) (h : c.mem_stats.length ≤ 60) :
    (stats_patch cpu mem ml rx tx c).mem_stats.length ≤ 60 := by
  rw [stats_patch_mem]
  cases mem <;>
    by_cases h1 : c.mem_stats.length ≥ 60 <;>
    simp [h1, List.length_tail] <;>
    omega

theorem update_stats_bounded (st : ContainerData) (id : String) (cpu : Option FVal)
    (mem : Option Nat) (ml rx tx : Nat) (h : stats_bounded st) :
    stats_bounded (st.update_stats id cpu mem ml rx tx) := by
  intro it hit
  unfold update_stats at hit
  have hit2 : it ∈ modify_by_id st.containers.items id (stats_patch cpu mem ml rx tx) :=
    ((sort_containers_perm _).mem_iff).mp hit
  rcases mem_modify_by_id hit2 with hmem | ⟨a, ha, rfl⟩
  · exact h it hmem
  · exact ⟨stats_patch_cpu_le cpu mem ml rx tx a (h a ha).1,
      stats_patch_mem_le cpu mem ml rx tx a (h a ha).2⟩

end ContainerData

theorem apply_stat_calls_bounded (ops : List StatCall) :
    ∀ st, ContainerData.stats_bounded st →
      ContainerData.stats_bounded (apply_stat_calls st ops) := by
  induction ops with
  | nil => intro st h; exact h
  | cons op rest ih =>
      intro st h
      exact ih _ (ContainerData.update_stats_bounded st op.id op.cpu op.mem
        op.mem_limit op.rx op.tx h)

theorem apply_reg_ok (st : ContainerData) (op : RegOp)
    (h : ContainerData.selection_ok st) :
    ContainerData.selection_ok (apply_reg st op) := by
  cases op with
  | reconcile s => exact ContainerData.update_containers_ok st s h
  | navStart => exact ContainerData.containers_start_ok st
  | navEnd => exact ContainerData.containers_end_ok st h
  | navNext => exact ContainerData.containers_next_ok st h
  | navPrevious => exact ContainerData.containers_previous_ok st h
  | sortBy hd => exact ContainerData.set_sort_by_header_ok st hd
  | resetSort => exact ContainerData.reset_sorted_ok st
  | stats id cpu mem ml rx tx => exact ContainerData.update_stats_ok st id cpu mem ml rx tx h
  | logs id lines now => exact ContainerData.update_log_by_id_ok st lines id now h

theorem apply_regs_fold_ok (ops : List RegOp) :
    ∀ st, ContainerData.selection_ok st →
      ContainerData.selection_ok (ops.foldl apply_reg st) := by
  induction ops with
  | nil => intro st h; exact h
  | cons op rest ih =>
      intro st h
      exact ih _ (apply_reg_ok st op h)

/-! ## Navigation-stack lemmas -/

theorem nav_push_inv (s : NavStack) (p : NavPanel) (hne : s ≠ [])
    (hh : s.head? = some NavPanel.containers) :
    nav_push s p ≠ [] ∧ (nav_push s p).head? = some NavPanel.containers := by
  cases s with
  | nil => exact absurd rfl hne
  | cons a t =>
      constructor
      · simp [nav_push]
      · simpa [nav_push] using hh

theorem nav_pop_inv (s : NavStack) (hne : s ≠ [])
    (hh : s.head? = some NavPanel.containers) :
    nav_pop s ≠ [] ∧ (nav_pop s).head? = some NavPanel.containers := by
  unfold nav_pop
  by_cases hl : s.length ≤ 1
  · rw [if_pos hl]
    exact ⟨hne, hh⟩
  · rw [if_neg hl]
    cases s with
    | nil => exact absurd rfl hne
    | cons a t =>
        cases t with
        | nil => simp at hl
        | cons b t2 =>
            constructor
            · simp [List.dropLast]
            · simpa [List.dropLast] using hh

theorem nav_fold_inv (ops : List NavOp) :
    ∀ s : NavStack, s ≠ [] → s.head? = some NavPanel.containers →
      ops.foldl nav_step s ≠ [] ∧
        (ops.foldl nav_step s).head? = some NavPanel.containers := by
  induction ops with
  | nil => intro s hne hh; exact ⟨hne, hh⟩
  | cons op rest ih =>
      intro s hne hh
      cases op with
      | push p =>
          have h1 := nav_push_inv s p hne hh
          exact ih _ h1.1 h1.2
      | pop =>
          have h1 := nav_pop_inv s hne hh
          exact ih _ h1.1 h1.2

/-! ## Patch-loop characterisation lemmas -/

theorem any_eq_of_perm {l1 l2 : List α} (h : List.Perm l1 l2) (p : α → Bool) :
    l1.any p = l2.any p := by
  cases h1 : l1.any p <;> cases h2 : l2.any p
  · rfl
  · rcases List.any_eq_true.mp h2 with ⟨x, hx, hpx⟩
    have hx1 : x ∈ l1 := h.mem_iff.mpr hx
    have := List.any_eq_true.mpr ⟨x, hx1, hpx⟩
    rw [h1] at this
    cases this
  · rcases List.any_eq_true.mp h1 with ⟨x, hx, hpx⟩
    have hx2 : x ∈ l2 := h.mem_iff.mp hx
    have := List.any_eq_true.mpr ⟨x, hx2, hpx⟩
    rw [h2] at this
    cases this
  · rfl

theorem field_patch_eq (n s : String) (stt : State) (im : String)
    (item : ContainerItem) :
    ContainerData.field_patch n s stt im item =
      { item with name := n, status := s, state := stt, image := im } := by
  obtain ⟨cr, cst, dc, idf, imf, lu, lg, ml, ms, nm, rxf, stf, suf, txf, oxf⟩ := item
  simp only [ContainerData.field_patch]
  by_cases h1 : nm = n <;> by_cases h2 : suf = s <;> by_cases h3 : stf = stt <;>
    by_cases h4 : imf = im <;> simp [h1, h2, h3, h4]

theorem field_patch_id (n s : String) (stt : State) (im : String)
    (item : ContainerItem) :
    (ContainerData.field_patch n s stt im item).id = item.id := by
  rw [field_patch_eq]

theorem find_isSome_any (l : List ContainerItem) (i : String) :
    (ContainerData.find_by_id l i).isSome =
      (l.map (fun c => c.id)).any (fun k => k = i) := by
  induction l with
  | nil => rfl
  | cons c cs ih =>
      by_cases h : c.id = i <;> simp [ContainerData.find_by_id, h, ih]

theorem new_ids_cons (known : List String) (e : ContainerSummary)
    (es : List ContainerSummary) :
    new_ids known (e :: es) =
      (match e.id with
       | none => new_ids known es
       | some i =>
          if known.any (fun k => k = i) then new_ids known es
          else i :: new_ids (i :: known) es) := rfl

theorem new_ids_cons_none (known : List String) (e : ContainerSummary)
    (es : List ContainerSummary) (he : e.id = none) :
    new_ids known (e :: es) = new_ids known es := by
  rw [new_ids_cons, he]

theorem new_ids_cons_some (known : List String) (e : ContainerSummary)
    (es : List ContainerSummary) (i : String) (he : e.id = some i) :
    new_ids known (e :: es) =
      (if known.any (fun k => k = i) then new_ids known es
       else i :: new_ids (i :: known) es) := by
  rw [new_ids_cons, he]

theorem new_ids_congr (es : List ContainerSummary) :
    ∀ a b : List String,
      (∀ x, a.any (fun k => k = x) = b.any (fun k => k = x)) →
        new_ids a es = new_ids b es := by
  induction es with
  | nil => intro a b h; rfl
  | cons e es ih =>
      intro a b h
      cases he : e.id with
      | none =>
          rw [new_ids_cons_none _ _ _ he, new_ids_cons_none _ _ _ he]
          exact ih a b h
      | some i =>
          rw [new_ids_cons_some _ _ _ _ he, new_ids_cons_some _ _ _ _ he, h i]
          by_cases hb : b.any (fun k => k = i) = true
          · rw [if_pos hb, if_pos hb]
            exact ih a b h
          · rw [if_neg hb, if_neg hb]
            have : new_ids (i :: a) es = new_ids (i :: b) es := by
              apply ih
              intro x
              simp [List.any_cons, h x]
            rw [this]

theorem patch_one_map_id (st : ContainerData) (e : ContainerSummary) :
    (ContainerData.patch_one st e).1.containers.items.map (fun c => c.id) =
      (match e.id with
       | none => st.containers.items.map (fun c => c.id)
       | some i =>
          if (ContainerData.find_by_id st.containers.items i).isSome = true then
            st.containers.items.map (fun c => c.id)
          else st.containers.items.map (fun c => c.id) ++ [i]) := by
  unfold ContainerData.patch_one
  cases e.id with
  | none => rfl
  | some i =>
      dsimp only
      cases hf : ContainerData.find_by_id st.containers.items i with
      | none => simp [ContainerItem.new]
      | some a =>
          simp only [Option.isSome_some, if_pos]
          exact ContainerData.modify_by_id_map_id (fun x => field_patch_id _ _ _ _ x)

theorem patch_go_map_id (es : List ContainerSummary) :
    ∀ st : ContainerData,
      (ContainerData.patch_go st es).1.containers.items.map (fun c => c.id) =
        st.containers.items.map (fun c => c.id) ++
          new_ids (st.containers.items.map (fun c => c.id)) es := by
  induction es with
  | nil => intro st; simp [ContainerData.patch_go, new_ids]
  | cons e es ih =>
      intro st
      rw [ContainerData.patch_go_cons]
      dsimp only
      rw [ih ((ContainerData.patch_one st e).1), patch_one_map_id]
      cases he : e.id with
      | none =>
          dsimp only
          rw [new_ids_cons_none _ _ _ he]
      | some i =>
          dsimp only
          rw [new_ids_cons_some _ _ _ _ he, ← find_isSome_any st.containers.items i]
          by_cases hf : (ContainerData.find_by_id st.containers.items i).isSome = true
          · simp only [if_pos hf]
          · simp only [if_neg hf]
            rw [List.append_assoc]
            have : new_ids (st.containers.items.map (fun c => c.id) ++ [i]) es =
                new_ids (i :: st.containers.items.map (fun c => c.id)) es := by
              apply new_ids_congr
              intro x
              simp [List.any_append, List.any_cons, Bool.or_comm]
            rw [this]
            rfl

theorem remove_go_id_of_present (s : List ContainerSummary) :
    ∀ (pairs : List (Nat × String)) (st : ContainerData),
      (∀ pr ∈ pairs, s.any (fun e => e.id = some pr.2) = true) →
        ContainerData.remove_go st pairs s = st := by
  intro pairs
  induction pairs with
  | nil => intro st _; rfl
  | cons pr rest ih =>
      intro st h
      rw [ContainerData.remove_go_cons]
      have h1 : ContainerData.remove_step s st pr = st := by
        unfold ContainerData.remove_step
        rw [if_pos (h pr (List.mem_cons_self _ _))]
      rw [h1]
      exact ih st (fun q hq => h q (List.mem_cons_of_mem _ hq))

/-! ## Idempotence lemmas for reconciliation -/

theorem strip_entry_id (e : ContainerSummary) : (strip_entry e).id = e.id := by
  unfold strip_entry
  cases he : e.id with
  | none => exact he
  | some v => rfl

theorem map_strip_any (l : List ContainerSummary) (i : String) :
    (l.map strip_entry).any (fun e => e.id = some i) =
      l.any (fun e => e.id = some i) := by
  induction l with
  | nil => rfl
  | cons e es ih => simp [List.any_cons, strip_entry_id, ih]

theorem patch_one_snd (st : ContainerData) (e : ContainerSummary) :
    (ContainerData.patch_one st e).2 = strip_entry e := by
  unfold ContainerData.patch_one strip_entry
  cases e.id with
  | none => rfl
  | some i =>
      dsimp only
      cases ContainerData.find_by_id st.containers.items i <;> rfl

theorem patch_go_snd (es : List ContainerSummary) :
    ∀ st, (ContainerData.patch_go st es).2 = es.map strip_entry := by
  induction es with
  | nil => intro st; rfl
  | cons e es ih =>
      intro st
      rw [ContainerData.patch_go_cons]
      dsimp only
      rw [ih, patch_one_snd, List.map_cons]

theorem update_containers_snd (st : ContainerData) (s : List ContainerSummary) :
    (st.update_containers s).2 =
      (if st.containers.items.isEmpty then
        s.insertionSort (fun a b => summary_created_le a b = true)
      else s).map strip_entry := by
  simp only [ContainerData.update_containers]
  rw [patch_go_snd]

theorem perm_isEmpty {l1 l2 : List α} (h : List.Perm l1 l2) :
    l1.isEmpty = l2.isEmpty := by
  have := h.length_eq
  cases l1 <;> cases l2 <;> simp_all

theorem new_ids_mem (es : List ContainerSummary) :
    ∀ (known : List String) (i : String), i ∈ new_ids known es →
      ∃ e ∈ es, e.id = some i := by
  induction es with
  | nil => intro known i h; cases h
  | cons e es ih =>
      intro known i h
      cases he : e.id with
      | none =>
          rw [new_ids_cons_none _ _ _ he] at h
          rcases ih known i h with ⟨e2, he2, hid⟩
          exact ⟨e2, List.mem_cons_of_mem _ he2, hid⟩
      | some j =>
          rw [new_ids_cons_some _ _ _ _ he] at h
          by_cases hk : (known.any fun k => k = j) = true
          · rw [if_pos hk] at h
            rcases ih known i h with ⟨e2, he2, hid⟩
            exact ⟨e2, List.mem_cons_of_mem _ he2, hid⟩
          · rw [if_neg hk] at h
            rcases List.mem_cons.mp h with rfl | h2
            · exact ⟨e, List.mem_cons_self _ _, he⟩
            · rcases ih (j :: known) i h2 with ⟨e2, he2, hid⟩
              exact ⟨e2, List.mem_cons_of_mem _ he2, hid⟩

theorem remove_prev_items (st : ContainerData) :
    (ContainerData.remove_prev st).containers.items = st.containers.items := by
  unfold ContainerData.remove_prev ContainerData.containers_previous
  split
  · exact StatefulList.previous_items _
  · rfl

theorem remove_erase_items_pos (idx : Nat) (st : ContainerData)
    (h : idx < st.containers.items.length) :
    (ContainerData.remove_erase idx st).containers.items =
      st.containers.items.eraseIdx idx := by
  unfold ContainerData.remove_erase
  rw [if_pos h]

theorem remove_go_append (s : List ContainerSummary) (st : ContainerData)
    (p1 p2 : List (Nat × String)) :
    ContainerData.remove_go st (p1 ++ p2) s =
      ContainerData.remove_go (ContainerData.remove_go st p1 s) p2 s :=
  List.foldl_append _ _ _ _

theorem enumerate_cons (n : Nat) (a : α) (l : List α) :
    ContainerData.enumerate n (a :: l) = (n, a) :: ContainerData.enumerate (n + 1) l := rfl

theorem filter_le_one_cases (p : α → Bool) :
    ∀ l : List α, (l.filter p).length ≤ 1 →
      (∀ x ∈ l, p x = false) ∨
        ∃ l1 x l2, l = l1 ++ x :: l2 ∧ p x = true ∧
          (∀ y ∈ l1, p y = false) ∧ (∀ y ∈ l2, p y = false) := by
  intro l
  induction l with
  | nil => intro _; left; intro x hx; cases hx
  | cons a t ih =>
      intro h
      by_cases hpa : p a = true
      · right
        refine ⟨[], a, t, rfl, hpa, fun y hy => absurd hy (List.not_mem_nil y), ?_⟩
        intro y hy
        have hf : (List.filter p (a :: t)).length = (List.filter p t).length + 1 := by
          simp [List.filter_cons, hpa]
        have ht : (List.filter p t).length = 0 := by omega
        have ht2 : List.filter p t = [] := List.length_eq_zero.mp ht
        by_cases hpy : p y = true
        · have : y ∈ List.filter p t := List.mem_filter.mpr ⟨hy, hpy⟩
          rw [ht2] at this
          cases this
        · exact Bool.not_eq_true _ ▸ Bool.eq_false_iff.mpr hpy
      · have hpa2 : p a = false := Bool.eq_false_iff.mpr hpa
        have hft : (List.filter p t).length ≤ 1 := by
          have : List.filter p (a :: t) = List.filter p t := by
            simp [List.filter_cons, hpa2]
          rw [this] at h
          exact h
        rcases ih hft with hall | ⟨l1, x, l2, heq, hx, h1, h2⟩
        · left
          intro y hy
          rcases List.mem_cons.mp hy with rfl | hy2
          · exact hpa2
          · exact hall y hy2
        · right
          exact ⟨a :: l1, x, l2, by rw [heq]; exact (List.cons_append _ _ _).symm, hx,
            fun y hy => by
              rcases List.mem_cons.mp hy with rfl | hy2
              · exact hpa2
              · exact h1 y hy2, h2⟩

theorem strip_name_idem (ns : Option (List String))
    (hn : str_starts "/" (ContainerData.strip_name ns).1 = false) :
    ContainerData.strip_name (ContainerData.strip_name ns).2 =
      ContainerData.strip_name ns := by
  cases ns with
  | none => rfl
  | some l =>
      cases l with
      | nil => rfl
      | cons f rest =>
          by_cases hf : str_starts "/" f = true
          · have h1 : ContainerData.strip_name (some (f :: rest)) =
                (str_drop1 f, some (str_drop1 f :: rest)) := by
              show (if str_starts "/" f = true then
                  (str_drop1 f, some (str_drop1 f :: rest))
                else (f, some (f :: rest))) = (str_drop1 f, some (str_drop1 f :: rest))
              rw [if_pos hf]
            rw [h1] at hn ⊢
            dsimp only at hn ⊢
            show (if str_starts "/" (str_drop1 f) = true then
                (str_drop1 (str_drop1 f), some (str_drop1 (str_drop1 f) :: rest))
              else (str_drop1 f, some (str_drop1 f :: rest))) =
              (str_drop1 f, some (str_drop1 f :: rest))
            rw [if_neg (by simp [hn])]
          · have h1 : ContainerData.strip_name (some (f :: rest)) = (f, some (f :: rest)) := by
              show (if str_starts "/" f = true then
                  (str_drop1 f, some (str_drop1 f :: rest))
                else (f, some (f :: rest))) = (f, some (f :: rest))
              rw [if_neg hf]
            rw [h1]
            exact h1

theorem strip_entry_none (e : ContainerSummary) (he : e.id = none) :
    strip_entry e = e := by
  unfold strip_entry
  rw [he]

theorem strip_entry_some (e : ContainerSummary) (i : String) (he : e.id = some i) :
    strip_entry e = { e with names := (ContainerData.strip_name e.names).2 } := by
  unfold strip_entry
  rw [he]

theorem strip_entry_vals (e : ContainerSummary)
    (hn : str_starts "/" (ContainerData.sum_name e) = false) :
    ContainerData.sum_name (strip_entry e) = ContainerData.sum_name e ∧
    ContainerData.sum_status (strip_entry e) = ContainerData.sum_status e ∧
    ContainerData.sum_state (strip_entry e) = ContainerData.sum_state e ∧
    ContainerData.sum_image (strip_entry e) = ContainerData.sum_image e ∧
    strip_entry (strip_entry e) = strip_entry e := by
  cases he : e.id with
  | none =>
      have h0 := strip_entry_none e he
      rw [h0]
      exact ⟨rfl, rfl, rfl, rfl, h0⟩
  | some i =>
      have h0 := strip_entry_some e i he
      have hnm : ContainerData.sum_name (strip_entry e) = ContainerData.sum_name e := by
        rw [h0]
        show (ContainerData.strip_name (ContainerData.strip_name e.names).2).1 =
          (ContainerData.strip_name e.names).1
        rw [strip_name_idem e.names hn]
      refine ⟨hnm, by rw [h0]; rfl, by rw [h0]; rfl, by rw [h0]; rfl, ?_⟩
      have hid2 : (strip_entry e).id = some i := by rw [strip_entry_id, he]
      rw [strip_entry_some (strip_entry e) i hid2]
      have h3 : (ContainerData.strip_name (strip_entry e).names).2 = (strip_entry e).names := by
        rw [h0]
        show (ContainerData.strip_name (ContainerData.strip_name e.names).2).2 =
          (ContainerData.strip_name e.names).2
        rw [strip_name_idem e.names hn]
      rw [h3]

theorem field_patch_self (item : ContainerItem) (n s : String) (stt : State)
    (im : String) (h1 : item.name = n) (h2 : item.status = s)
    (h3 : item.state = stt) (h4 : item.image = im) :
    ContainerData.field_patch n s stt im item = item := by
  rw [field_patch_eq, ← h1, ← h2, ← h3, ← h4]

theorem patch_one_none (st : ContainerData) (e : ContainerSummary)
    (he : e.id = none) : ContainerData.patch_one st e = (st, e) := by
  unfold ContainerData.patch_one
  rw [he]

theorem patch_one_noop (st : ContainerData) (e : ContainerSummary) (i : String)
    (he : e.id = some i) {a : ContainerItem}
    (hfind : ContainerData.find_by_id st.containers.items i = some a)
    (h1 : a.name = ContainerData.sum_name e) (h2 : a.status = ContainerData.sum_status e)
    (h3 : a.state = ContainerData.sum_state e) (h4 : a.image = ContainerData.sum_image e)
    (hse : strip_entry e = e) :
    ContainerData.patch_one st e = (st, e) := by
  unfold ContainerData.patch_one
  rw [he]
  dsimp only
  rw [hfind]
  dsimp only
  have hm : ContainerData.modify_by_id st.containers.items i
      (ContainerData.field_patch (ContainerData.sum_name e) (ContainerData.sum_status e) (ContainerData.sum_state e) (ContainerData.sum_image e)) =
      st.containers.items :=
    ContainerData.modify_by_id_eq_self hfind (field_patch_self a _ _ _ _ h1 h2 h3 h4)
  rw [hm]
  have hsnd : ContainerSummary.mk (some i) (ContainerData.strip_name e.names).2
      e.image e.state e.status e.created e.command = e := by
    rw [← he, ← strip_entry_some e i he]
    exact hse
  rw [hsnd]

theorem patch_one_find_preserve (st : ContainerData) (e2 : ContainerSummary)
    (i : String) (hne : e2.id ≠ some i) :
    ContainerData.find_by_id (ContainerData.patch_one st e2).1.containers.items i =
      ContainerData.find_by_id st.containers.items i := by
  unfold ContainerData.patch_one
  cases he2 : e2.id with
  | none => rfl
  | some j =>
      have hji : j ≠ i := fun h => hne (by rw [he2, h])
      dsimp only
      cases hf : ContainerData.find_by_id st.containers.items j with
      | some a =>
          dsimp only
          exact ContainerData.find_modify_other (fun x => field_patch_id _ _ _ _ x) hji
      | none =>
          dsimp only
          rw [ContainerData.find_append]
          cases hfi : ContainerData.find_by_id st.containers.items i with
          | some b => rfl
          | none =>
              dsimp only
              simp [ContainerItem.new, hji]

theorem patch_go_find_preserve (es : List ContainerSummary) (i : String)
    (hnot : ∀ e2 ∈ es, e2.id ≠ some i) :
    ∀ st, ContainerData.find_by_id
        (ContainerData.patch_go st es).1.containers.items i =
      ContainerData.find_by_id st.containers.items i := by
  induction es with
  | nil => intro st; rfl
  | cons e es ih =>
      intro st
      rw [ContainerData.patch_go_cons]
      dsimp only
      rw [ih (fun e2 h2 => hnot e2 (List.mem_cons_of_mem _ h2)),
        patch_one_find_preserve st e i (hnot e (List.mem_cons_self _ _))]

theorem patch_one_find_self (st : ContainerData) (e : ContainerSummary) (i : String)
    (he : e.id = some i) :
    ∃ it, ContainerData.find_by_id
        (ContainerData.patch_one st e).1.containers.items i = some it ∧
      it.name = ContainerData.sum_name e ∧ it.status = ContainerData.sum_status e ∧ it.state = ContainerData.sum_state e ∧
      it.image = ContainerData.sum_image e := by
  unfold ContainerData.patch_one
  rw [he]
  dsimp only
  cases hf : ContainerData.find_by_id st.containers.items i with
  | some a =>
      dsimp only
      refine ⟨ContainerData.field_patch (ContainerData.sum_name e) (ContainerData.sum_status e) (ContainerData.sum_state e)
        (ContainerData.sum_image e) a, ?_, ?_, ?_, ?_, ?_⟩
      · exact ContainerData.find_modify_self (fun x => field_patch_id _ _ _ _ x) hf
      · rw [field_patch_eq]
      · rw [field_patch_eq]
      · rw [field_patch_eq]
      · rw [field_patch_eq]
  | none =>
      dsimp only
      refine ⟨ContainerItem.new (ContainerData.sum_created e) i (ContainerData.sum_image e) (ContainerData.sum_is_oxker e)
        (ContainerData.sum_name e) (ContainerData.sum_state e) (ContainerData.sum_status e), ?_, rfl, rfl, rfl, rfl⟩
      rw [ContainerData.find_append, hf]
      dsimp only
      rw [if_pos (show (ContainerItem.new (ContainerData.sum_created e) i (ContainerData.sum_image e) (ContainerData.sum_is_oxker e)
        (ContainerData.sum_name e) (ContainerData.sum_state e) (ContainerData.sum_status e)).id = i from rfl)]

theorem patch_established (es : List ContainerSummary) :
    ∀ st : ContainerData, (es.filterMap (fun e => e.id)).Nodup →
      (∀ e ∈ es, str_starts "/" (ContainerData.sum_name e) = false) →
      ∀ e2 ∈ (ContainerData.patch_go st es).2,
        ContainerData.patch_one (ContainerData.patch_go st es).1 e2 =
          ((ContainerData.patch_go st es).1, e2) := by
  induction es with
  | nil => intro st _ _ e2 h2; cases h2
  | cons e es ih =>
      intro st hdup hnames e2 hmem
      have hdup2 : (es.filterMap (fun e => e.id)).Nodup := by
        rw [List.filterMap_cons] at hdup
        cases he : e.id with
        | none => rw [he] at hdup; exact hdup
        | some i => rw [he] at hdup; exact (List.nodup_cons.mp hdup).2
      rw [ContainerData.patch_go_cons] at hmem ⊢
      dsimp only at hmem ⊢
      rcases List.mem_cons.mp hmem with rfl | hmem2
      · rw [patch_one_snd]
        cases he : e.id with
        | none =>
            rw [strip_entry_none e he]
            exact patch_one_none _ _ he
        | some i =>
            have hn := hnames e (List.mem_cons_self _ _)
            obtain ⟨hnm, hst, hsa, him, hidem⟩ := strip_entry_vals e hn
            obtain ⟨it, hfindA, f1, f2, f3, f4⟩ := patch_one_find_self st e i he
            have hnot : ∀ e3 ∈ es, e3.id ≠ some i := by
              intro e3 h3 hc
              have hmem3 : i ∈ es.filterMap (fun e => e.id) :=
                List.mem_filterMap.mpr ⟨e3, h3, hc⟩
              rw [List.filterMap_cons, he] at hdup
              exact (List.nodup_cons.mp hdup).1 hmem3
            have hfindB : ContainerData.find_by_id
                (ContainerData.patch_go (ContainerData.patch_one st e).1 es).1.containers.items i
                = some it := by
              rw [patch_go_find_preserve es i hnot]
              exact hfindA
            have hid2 : (strip_entry e).id = some i := by rw [strip_entry_id, he]
            exact patch_one_noop _ _ i hid2 hfindB
              (by rw [f1, hnm]) (by rw [f2, hst]) (by rw [f3, hsa]) (by rw [f4, him]) hidem
      · exact ih _ hdup2 (fun e3 h3 => hnames e3 (List.mem_cons_of_mem _ h3)) e2 hmem2

theorem patch_go_fst_const (es : List ContainerSummary) :
    ∀ st, (∀ e ∈ es, (ContainerData.patch_one st e).1 = st) →
      (ContainerData.patch_go st es).1 = st := by
  induction es with
  | nil => intro st _; rfl
  | cons e es ih =>
      intro st h
      rw [ContainerData.patch_go_cons]
      dsimp only
      rw [h e (List.mem_cons_self _ _)]
      exact ih st (fun e2 h2 => h e2 (List.mem_cons_of_mem _ h2))

/-- The start-seeding branch never changes the item list. -/
theorem start_if_items (c : Prop) [Decidable c] (st : ContainerData) :
    (if c then st.containers_start else st).containers.items =
      st.containers.items := by
  split <;> rfl

theorem remove_go_single (s1 : List ContainerSummary) (st1 : ContainerData)
    (l1 : List ContainerItem) (x : ContainerItem) (l2 : List ContainerItem)
    (hitems : st1.containers.items = l1 ++ x :: l2)
    (hx : s1.any (fun e => e.id = some x.id) = false)
    (h1 : ∀ y ∈ l1, s1.any (fun e => e.id = some y.id) = true)
    (h2 : ∀ y ∈ l2, s1.any (fun e => e.id = some y.id) = true) :
    ((ContainerData.remove_go st1
      (ContainerData.enumerate 0 ((l1 ++ x :: l2).map (fun c => c.id))) s1).containers.items)
      = l1 ++ l2 := by
  rw [List.map_append, List.map_cons, ContainerData.enumerate_append, remove_go_append]
  have hpre : ContainerData.remove_go st1
      (ContainerData.enumerate 0 (l1.map (fun c => c.id))) s1 = st1 := by
    apply remove_go_id_of_present
    intro pr hpr
    rcases List.mem_map.mp (ContainerData.mem_enumerate hpr) with ⟨y, hy, hid⟩
    rw [← hid]
    exact h1 y hy
  rw [hpre]
  have hlen : 0 + (l1.map (fun c => c.id)).length = l1.length := by
    simp
  rw [hlen, enumerate_cons, ContainerData.remove_go_cons]
  have hstep : ContainerData.remove_step s1 st1 (l1.length, x.id) =
      ContainerData.remove_erase l1.length (ContainerData.remove_prev st1) := by
    unfold ContainerData.remove_step
    rw [if_neg (by simp [hx])]
  rw [hstep]
  have hsuf : ContainerData.remove_go
      (ContainerData.remove_erase l1.length (ContainerData.remove_prev st1))
      (ContainerData.enumerate (l1.length + 1) (l2.map (fun c => c.id))) s1 =
      ContainerData.remove_erase l1.length (ContainerData.remove_prev st1) := by
    apply remove_go_id_of_present
    intro pr hpr
    rcases List.mem_map.mp (ContainerData.mem_enumerate hpr) with ⟨y, hy, hid⟩
    rw [← hid]
    exact h2 y hy
  rw [hsuf]
  have hlt : l1.length < (ContainerData.remove_prev st1).containers.items.length := by
    rw [remove_prev_items, hitems]
    simp only [List.length_append, List.length_cons]
    omega
  rw [remove_erase_items_pos _ _ hlt, remove_prev_items, hitems]
  exact ContainerData.eraseIdx_append_middle l1 x l2

theorem remove_phase_present (s s1 : List ContainerSummary) (st1 : ContainerData)
    (items0 : List ContainerItem) (hitems : st1.containers.items = items0)
    (hany : ∀ j, s1.any (fun e => e.id = some j) = s.any (fun e => e.id = some j))
    (habs : (items0.filter (fun it => ! s.any (fun e => e.id = some it.id))).length ≤ 1) :
    ∀ i ∈ ((ContainerData.remove_go st1
        (ContainerData.enumerate 0 (items0.map (fun c => c.id))) s1).containers.items.map
        (fun c => c.id)),
      s.any (fun e => e.id = some i) = true := by
  intro i hi
  rcases filter_le_one_cases _ items0 habs with hall | ⟨l1, x, l2, heq, hx, hl1, hl2⟩
  · have hrm : ContainerData.remove_go st1
        (ContainerData.enumerate 0 (items0.map (fun c => c.id))) s1 = st1 := by
      apply remove_go_id_of_present
      intro pr hpr
      rcases List.mem_map.mp (ContainerData.mem_enumerate hpr) with ⟨y, hy, hid⟩
      rw [hany, ← hid]
      simpa using hall y hy
    rw [hrm, hitems] at hi
    rcases List.mem_map.mp hi with ⟨y, hy, hid⟩
    rw [← hid]
    simpa using hall y hy
  · subst heq
    have hx' : s1.any (fun e => e.id = some x.id) = false := by
      rw [hany]
      simpa using hx
    have h1' : ∀ y ∈ l1, s1.any (fun e => e.id = some y.id) = true := by
      intro y hy
      rw [hany]
      simpa using hl1 y hy
    have h2' : ∀ y ∈ l2, s1.any (fun e => e.id = some y.id) = true := by
      intro y hy
      rw [hany]
      simpa using hl2 y hy
    rw [remove_go_single s1 st1 l1 x l2 hitems hx' h1' h2'] at hi
    rcases List.mem_map.mp hi with ⟨y, hy, hid⟩
    rw [← hid]
    rcases List.mem_append.mp hy with hy1 | hy2
    · simpa using hl1 y hy1
    · simpa using hl2 y hy2

theorem update_containers_present_all (st : ContainerData) (s : List ContainerSummary)
    (habs : (st.containers.items.filter
        (fun it => ! s.any (fun e => e.id = some it.id))).length ≤ 1) :
    ∀ i ∈ (st.update_containers s).1.containers.items.map (fun c => c.id),
      s.any (fun e => e.id = some i) = true := by
  intro i hi
  simp only [ContainerData.update_containers] at hi
  rw [patch_go_map_id] at hi
  rcases List.mem_append.mp hi with h2 | h2
  · refine remove_phase_present s _ _ _ (start_if_items _ st) ?_ habs i h2
    intro j
    split
    · exact any_eq_of_perm (List.perm_insertionSort _ _) _
    · rfl
  · rcases new_ids_mem _ _ _ h2 with ⟨e, he, hid⟩
    have he2 : e ∈ s := by
      revert he
      split
      · intro he
        exact ((List.perm_insertionSort _ _).mem_iff).mp he
      · intro he
        exact he
    exact List.any_eq_true.mpr ⟨e, he2, by simp [hid]⟩

theorem remove_go_isSome (s : List ContainerSummary) (pairs : List (Nat × String)) :
    ∀ st : ContainerData, st.containers.state.isSome = true →
      (ContainerData.remove_go st pairs s).containers.state.isSome = true := by
  induction pairs with
  | nil => intro st h; exact h
  | cons pr rest ih =>
      intro st h
      rw [ContainerData.remove_go_cons]
      apply ih
      unfold ContainerData.remove_step
      split
      · exact h
      · rw [ContainerData.remove_erase_state]
        unfold ContainerData.remove_prev
        split
        · exact StatefulList.previous_isSome _ (by assumption)
        · exact StatefulList.previous_isSome _ h

theorem update_containers_isSome (st : ContainerData) (s : List ContainerSummary)
    (hs : s ≠ []) :
    (st.update_containers s).1.containers.state.isSome = true := by
  simp only [ContainerData.update_containers]
  rw [ContainerData.patch_go_state]
  apply remove_go_isSome
  have hS1 : (if st.containers.items.isEmpty then
      s.insertionSort (fun a b => summary_created_le a b = true) else s).isEmpty = false := by
    split
    · rw [perm_isEmpty (List.perm_insertionSort _ s)]
      cases s with
      | nil => exact absurd rfl hs
      | cons a t => rfl
    · cases s with
      | nil => exact absurd rfl hs
      | cons a t => rfl
  have key : ∀ s1 : List ContainerSummary, s1.isEmpty = false →
      ((if ¬ s1.isEmpty = true ∧ st.containers.state = none then st.containers_start
        else st)).containers.state.isSome = true := by
    intro s1 hs1
    split
    · rfl
    · rename_i hcond
      cases hst : st.containers.state with
      | some v => rfl
      | none =>
          exfalso
          apply hcond
          exact ⟨by simp [hs1], hst⟩
  exact key _ hS1

/-- The sample-patched item is among the items after `update_stats`. -/
theorem update_stats_mem (st : ContainerData) (id : String) (cpu : Option FVal)
    (mem : Option Nat) (ml rx tx : Nat) {a : ContainerItem}
    (hfind : ContainerData.find_by_id st.containers.items id = some a) :
    ContainerData.stats_patch cpu mem ml rx tx a ∈
      (st.update_stats id cpu mem ml rx tx).containers.items := by
  have h1 := ContainerData.mem_modify_of_find
    (f := ContainerData.stats_patch cpu mem ml rx tx) hfind
  exact ((ContainerData.sort_containers_perm _).mem_iff).mpr h1

/-! ## Claim theorems -/

set_option maxRecDepth 40000

/-- C1 (code bug): evaluating `update_containers` at concrete registries
contradicts the claimed removal semantics three ways. (1) With `[a, b, c]`
and `b` selected, reconciling against a snapshot containing only `a, b`
removes `c` but moves the selection from `b` to `a`, although the removed
item was not the selected one. (2) With `[a, b]` and an empty snapshot,
only one item is removed: `b`, although absent from the snapshot, remains
(the loop removes by pre-call indices, which shift as items are removed).
(3) With `[a]` selected and an empty snapshot the list empties but the
selection stays `Some 0`, a stale index, not `None`. -/
theorem C1_code_eval :
    (ContainerData.get_selected_container_id c1_abc = some "b" ∧
      ContainerData.get_selected_container_id
        (c1_abc.update_containers [fix_sum "a" 1, fix_sum "b" 2]).1 = some "a" ∧
      (c1_abc.update_containers [fix_sum "a" 1, fix_sum "b" 2]).1.containers.items.map
        (fun c => c.id) = ["a", "b"]) ∧
    ((c1_ab.update_containers []).1.containers.items.map (fun c => c.id) = ["b"]) ∧
    ((c1_a.update_containers []).1.containers.items = [] ∧
      (c1_a.update_containers []).1.containers.state = some 0) := by
  decide

/-- C2 (code bug): with baseline order `[b, a]` and `b` selected, setting
the Name sort reorders the items to `[a, b]` but leaves the selection
index at 0, so the selected item becomes `a`: the previously selected id
`b` is not rebound. (`set_sorted` reads the selected id only after the
sort has already permuted the items, so the `position` scan finds the
item now sitting at the old index and re-selects that same index.) -/
theorem C2_code_eval :
    ContainerData.get_selected_container_id c2_state = some "b" ∧
    (c2_state.set_sort_by_header Header.name).containers.items.map (fun c => c.id)
      = ["a", "b"] ∧
    (c2_state.set_sort_by_header Header.name).containers.state = some 0 ∧
    ContainerData.get_selected_container_id (c2_state.set_sort_by_header Header.name)
      = some "a" := by
  decide

/-- C3 counterexample: from the fresh (empty) registry, the public
operation `containers_start` leaves the item list empty with selection
`Some 0`, so "if the item list is empty the selection is None" fails. -/
theorem C3_counterexample :
    (apply_regs args0 [RegOp.navStart]).containers.items = [] ∧
    (apply_regs args0 [RegOp.navStart]).containers.state = some 0 := by
  decide

/-- C3 (amended): over every sequence of public registry operations
(reconcile, start/end/next/previous navigation, sorting, stat and log
updates) from the initial state, a present selection index is 0 or a
valid index into the current item list; a stale index beyond 0 never
survives, but `Some 0` can remain when the list is empty. -/
theorem C3_theorem (args : CliArgs) (ops : List RegOp) :
    ContainerData.selection_ok (apply_regs args ops) :=
  apply_regs_fold_ok ops (ContainerData.new args) (ContainerData.new_ok args)

/-- C4 counterexample: reconciliation is not idempotent. From the
two-item registry `[a, b]` and the empty snapshot, one reconcile leaves
`[b]` behind (the removal loop erases at stale pre-call indices, so the
second absent id is looked up out of bounds and survives), and a second
reconcile of the same snapshot then removes it, so the two runs differ. -/
theorem C4_counterexample :
    ((c1_ab.update_containers []).1.containers.items.map (fun c => c.id) = ["b"]) ∧
    (((c1_ab.update_containers []).1.update_containers []).1.containers.items.map
      (fun c => c.id) = []) := by
  decide

/-- C4 (amended): reconciliation is idempotent whenever the snapshot
leaves at most one registry item absent, snapshot ids are distinct, and
no snapshot row's stripped name still starts with `/`: under these
hypotheses, feeding the registry and mutated snapshot produced by one
`update_containers` back into a second `update_containers` returns that
registry unchanged (items, fields, order and selection alike). -/
theorem C4_theorem (st : ContainerData) (s : List ContainerSummary)
    (habs : (st.containers.items.filter
        (fun it => ! s.any (fun e => e.id = some it.id))).length ≤ 1)
    (hnames : ∀ e ∈ s, str_starts "/" (ContainerData.sum_name e) = false)
    (hdup : (s.filterMap (fun e => e.id)).Nodup) :
    ((st.update_containers s).1.update_containers (st.update_containers s).2).1 =
      (st.update_containers s).1 := by
  have hS1perm : List.Perm (if st.containers.items.isEmpty then
      s.insertionSort (fun a b => summary_created_le a b = true) else s) s := by
    split
    · exact List.perm_insertionSort _ _
    · exact List.Perm.refl _
  have hpresent := update_containers_present_all st s habs
  have hsnd := update_containers_snd st s
  have hestab : ∀ e2 ∈ (st.update_containers s).2,
      ContainerData.patch_one (st.update_containers s).1 e2 =
        ((st.update_containers s).1, e2) := by
    have hd2 : ((if st.containers.items.isEmpty then
        s.insertionSort (fun a b => summary_created_le a b = true) else s).filterMap
          (fun e => e.id)).Nodup :=
      ((hS1perm.filterMap (fun e => e.id)).nodup_iff).mpr hdup
    have hn2 : ∀ e ∈ (if st.containers.items.isEmpty then
        s.insertionSort (fun a b => summary_created_le a b = true) else s),
        str_starts "/" (ContainerData.sum_name e) = false :=
      fun e he => hnames e (hS1perm.mem_iff.mp he)
    simp only [ContainerData.update_containers]
    exact patch_established _ _ hd2 hn2
  have hempty : s = [] → (st.update_containers s).2 = [] := by
    intro h0
    subst h0
    rw [hsnd]
    have h1 : (if st.containers.items.isEmpty then
        ([] : List ContainerSummary).insertionSort
          (fun a b => summary_created_le a b = true) else []) = [] := by
      split <;> rfl
    rw [h1]
    rfl
  have hsome : s ≠ [] → ((st.update_containers s).1.containers.state).isSome = true :=
    fun hne => update_containers_isSome st s hne
  generalize hR : st.update_containers s = R at hpresent hsnd hestab hempty hsome ⊢
  obtain ⟨st3, s2⟩ := R
  dsimp only at hpresent hsnd hestab hempty hsome ⊢
  have hs2perm : List.Perm (if st3.containers.items.isEmpty then
      s2.insertionSort (fun a b => summary_created_le a b = true) else s2) s2 := by
    split
    · exact List.perm_insertionSort _ _
    · exact List.Perm.refl _
  have hany2 : ∀ j, (if st3.containers.items.isEmpty then
      s2.insertionSort (fun a b => summary_created_le a b = true) else s2).any
        (fun e => e.id = some j) = s.any (fun e => e.id = some j) := by
    intro j
    rw [any_eq_of_perm hs2perm, hsnd, map_strip_any]
    exact any_eq_of_perm hS1perm _
  simp only [ContainerData.update_containers]
  have hcond : ¬ (¬ (if st3.containers.items.isEmpty then
      s2.insertionSort (fun a b => summary_created_le a b = true) else s2).isEmpty = true ∧
      st3.containers.state = none) := by
    rintro ⟨hne, hnone⟩
    by_cases hs0 : s = []
    · apply hne
      rw [perm_isEmpty hs2perm, hempty hs0]
      rfl
    · have hS := hsome hs0
      rw [hnone] at hS
      cases hS
  rw [if_neg hcond]
  have hrm : ContainerData.remove_go st3
      (ContainerData.enumerate 0 (st3.containers.items.map (fun c => c.id)))
      (if st3.containers.items.isEmpty then
        s2.insertionSort (fun a b => summary_created_le a b = true) else s2) = st3 := by
    apply remove_go_id_of_present
    intro pr hpr
    rcases List.mem_map.mp (ContainerData.mem_enumerate hpr) with ⟨y, hy, hid⟩
    rw [hany2, ← hid]
    exact hpresent _ (List.mem_map.mpr ⟨y, hy, rfl⟩)
  rw [hrm]
  apply patch_go_fst_const
  intro e2 he2
  rw [hestab e2 (hs2perm.mem_iff.mp he2)]

/-- Witness for C4: the amended idempotence applied at the one-item
registry `[a]` against the singleton snapshot that keeps `a`. -/
theorem C4_witness :
    ((c1_a.update_containers [fix_sum "a" 1]).1.update_containers
        (c1_a.update_containers [fix_sum "a" 1]).2).1 =
      (c1_a.update_containers [fix_sum "a" 1]).1 :=
  C4_theorem c1_a [fix_sum "a" 1] (by decide) (by decide) (by decide)

/-- C5: the per-item CPU and memory history windows are capacity-60
FIFOs. First conjunct: any sequence of `update_stats` calls keeps every
item's two windows at 60 entries or fewer whenever they start that way.
Second conjunct: pushing the 100 CPU samples 0, …, 99 into a single
container leaves its window holding exactly the last 60 pushed values
40, …, 99 in push order. -/
theorem C5_theorem :
    (∀ (st : ContainerData) (ops : List StatCall),
        ContainerData.stats_bounded st →
          ContainerData.stats_bounded (apply_stat_calls st ops)) ∧
    (apply_stat_calls c5_state c5_calls).containers.items.map (fun c => c.cpu_stats) =
      [((List.range 100).drop 40).map FVal.ofNat] := by
  refine ⟨fun st ops h => apply_stat_calls_bounded ops st h, ?_⟩
  decide

/-- Witness for C5: the bounded-window conjunct applied at the concrete
single-container state and the concrete 100-call sequence. -/
theorem C5_witness :
    ContainerData.stats_bounded (apply_stat_calls c5_state c5_calls) :=
  C5_theorem.1 c5_state c5_calls (by unfold ContainerData.stats_bounded; decide)

/-- C6 counterexample: with an active Name-ascending sort on `[a, b]`,
reconciling a snapshot that keeps both and adds a new container named
`"0"` leaves the registry in an order that re-sorting would change — so
the active sort was not re-applied after the structural phase. -/
theorem C6_counterexample :
    (c6_state.update_containers c6_snapshot).1.sorted_by =
      some (Header.name, SortedOrder.asc) ∧
    ContainerData.sort_containers (c6_state.update_containers c6_snapshot).1 ≠
      (c6_state.update_containers c6_snapshot).1 := by
  decide

/-- C6 (amended): reconciliation leaves the active sort recorded in
`sorted_by` unchanged but does not re-apply it to the ordering: when no
registry id is absent from the snapshot, the resulting id order is the
prior order with the genuinely new snapshot ids appended in snapshot
order. (The active sort is re-applied only by the next `update_stats`,
which ends in `sort_containers`.) -/
theorem C6_theorem (st : ContainerData) (s : List ContainerSummary)
    (h : ∀ it ∈ st.containers.items, s.any (fun e => e.id = some it.id) = true) :
    (st.update_containers s).1.sorted_by = st.sorted_by ∧
    (st.update_containers s).1.containers.items.map (fun c => c.id) =
      st.containers.items.map (fun c => c.id) ++
        new_ids (st.containers.items.map (fun c => c.id))
          (if st.containers.items.isEmpty then
            s.insertionSort (fun a b => summary_created_le a b = true)
          else s) := by
  refine ⟨ContainerData.update_containers_sorted_by st s, ?_⟩
  have hS1 : List.Perm (if st.containers.items.isEmpty then
      s.insertionSort (fun a b => summary_created_le a b = true) else s) s := by
    split
    · exact List.perm_insertionSort _ _
    · exact List.Perm.refl _
  simp only [ContainerData.update_containers]
  have hpres : ∀ pr ∈ ContainerData.enumerate 0
      (st.containers.items.map (fun c => c.id)),
      (if st.containers.items.isEmpty then
        s.insertionSort (fun a b => summary_created_le a b = true)
      else s).any (fun e => e.id = some pr.2) = true := by
    intro pr hpr
    rcases List.mem_map.mp (ContainerData.mem_enumerate hpr) with ⟨it, hit, hid⟩
    rw [any_eq_of_perm hS1, ← hid]
    exact h it hit
  rw [remove_go_id_of_present _ _ _ hpres, patch_go_map_id, start_if_items]

/-- Witness for C6: the amended claim applied at the one-item registry
`[a]` against a snapshot that keeps `a`. -/
theorem C6_witness :
    (c1_a.update_containers [fix_sum "a" 1]).1.sorted_by = c1_a.sorted_by ∧
    (c1_a.update_containers [fix_sum "a" 1]).1.containers.items.map (fun c => c.id) =
      c1_a.containers.items.map (fun c => c.id) ++
        new_ids (c1_a.containers.items.map (fun c => c.id))
          (if c1_a.containers.items.isEmpty then
            [fix_sum "a" 1].insertionSort (fun a b => summary_created_le a b = true)
          else [fix_sum "a" 1]) :=
  C6_theorem c1_a [fix_sum "a" 1] (by decide)

/-- C7 (modelled from the spec, §4.3, as the stack mutators are not under
src/): from the root stack `[Containers]`, any sequence of pushes and
pops leaves the stack non-empty with `Containers` still at the bottom;
and the spec's scenario: `push(Logs)` gives `[Containers, Logs]`, `pop()`
returns to `[Containers]`, and `pop()` on the root alone keeps
`[Containers]`. -/
theorem C7_theorem :
    (∀ ops : List NavOp,
        apply_nav ops ≠ [] ∧ (apply_nav ops).head? = some NavPanel.containers) ∧
    nav_push nav_init NavPanel.logs = [NavPanel.containers, NavPanel.logs] ∧
    nav_pop (nav_push nav_init NavPanel.logs) = [NavPanel.containers] ∧
    nav_pop nav_init = [NavPanel.containers] := by
  refine ⟨fun ops => nav_fold_inv ops nav_init (by decide) rfl, by decide, by decide, by decide⟩

/-- C8 counterexample: in the §8 scenario the latest memory sample
(2 000 000 bytes) does not format as "2.00 kB" — 2 000 000 ≥ 10⁶, so the
display takes the MB branch. -/
theorem C8_counterexample :
    (c8_state.get_selected_container).map
      (fun c => byte_display (c.mem_stats.getLastD 0)) ≠ some "2.00 kB" := by
  decide

/-- C8 (amended): in the §8 scenario the registry holds the single
container with selection 0, the chart data reports the CPU series
`[(0.0, 12.5)]` with maximum 12.5 and state Running, and the memory value
and limit format as "2.00 MB" and "4.00 GB" (not "2.00 kB"). -/
theorem C8_theorem :
    ((ContainerData.new args0).update_containers [c8_sum]).1.containers.items.map
      (fun c => c.id) = ["c1"] ∧
    ((ContainerData.new args0).update_containers [c8_sum]).1.containers.state = some 0 ∧
    (c8_state.get_selected_container).map (fun c => c.get_chart_data.1) =
      some ([(FVal.ofNat 0, ⟨25, 2⟩)], ⟨25, 2⟩, State.running) ∧
    (c8_state.get_selected_container).map
      (fun c => byte_display (c.mem_stats.getLastD 0)) = some "2.00 MB" ∧
    (c8_state.get_selected_container).map (fun c => byte_display c.mem_limit) =
      some "4.00 GB" := by
  decide

/-- C9: the CPU-stats comparison (`Greater` when `a > b`, `Equal` when
`|a − b| < 0.01`, `Less` otherwise) is not a transitive total order: at
the concrete values 0, 1/128 and 1/64 (all exactly representable in
`f64`) the pairwise results are Equal, Equal, Less — mutually
inconsistent with any total order, since equality fails transitivity near
the epsilon boundary. -/
theorem C9_theorem :
    ∃ a b c : FVal, cpu_cmp a b = Ordering.eq ∧ cpu_cmp b c = Ordering.eq ∧
      cpu_cmp a c = Ordering.lt :=
  ⟨⟨0, 1⟩, ⟨1, 128⟩, ⟨1, 64⟩, by decide, by decide, by decide⟩

/-- C10: for an item whose two history windows already hold 60 samples,
`update_stats` with `cpu_stat = None` and `mem_stat = None` evicts the
oldest sample of each window without adding one, shrinking both to 59 —
eviction happens before the sample `Option` is examined. -/
theorem C10_theorem (st : ContainerData) (id : String) (a : ContainerItem)
    (ml rx tx : Nat)
    (hfind : ContainerData.find_by_id st.containers.items id = some a)
    (hc : a.cpu_stats.length = 60) (hm : a.mem_stats.length = 60) :
    ∃ it ∈ (st.update_stats id none none ml rx tx).containers.items,
      it.id = a.id ∧ it.cpu_stats = a.cpu_stats.tail ∧ it.mem_stats = a.mem_stats.tail ∧
      it.cpu_stats.length = 59 ∧ it.mem_stats.length = 59 := by
  have hcpu : (ContainerData.stats_patch none none ml rx tx a).cpu_stats =
      a.cpu_stats.tail := by
    rw [ContainerData.stats_patch_cpu]
    show (if a.cpu_stats.length ≥ 60 then a.cpu_stats.tail else a.cpu_stats) =
      a.cpu_stats.tail
    rw [if_pos (by omega)]
  have hmem : (ContainerData.stats_patch none none ml rx tx a).mem_stats =
      a.mem_stats.tail := by
    rw [ContainerData.stats_patch_mem]
    show (if a.mem_stats.length ≥ 60 then a.mem_stats.tail else a.mem_stats) =
      a.mem_stats.tail
    rw [if_pos (by omega)]
  refine ⟨ContainerData.stats_patch none none ml rx tx a,
    update_stats_mem st id none none ml rx tx hfind,
    ContainerData.stats_patch_id none none ml rx tx a, hcpu, hmem, ?_, ?_⟩
  · rw [hcpu, List.length_tail, hc]
  · rw [hmem, List.length_tail, hm]

/-- Witness for C10: the eviction theorem applied at the concrete
full-window registry. -/
theorem C10_witness :
    ∃ it ∈ (c10_state.update_stats "c1" none none 0 0 0).containers.items,
      it.id = c10_item.id ∧ it.cpu_stats = c10_item.cpu_stats.tail ∧
      it.mem_stats = c10_item.mem_stats.tail ∧
      it.cpu_stats.length = 59 ∧ it.mem_stats.length = 59 :=
  C10_theorem c10_state "c1" c10_item 0 0 0 (by decide) (by decide) (by decide)

end Oxker
